import Mathlib

/-!
# Verification of `rwlock.h` (mxcop/rwlock)

A shallow embedding of the read / write lock of `src/rwlock.h`.

* `RwLock T` holds the four data members `data`, `rc`, `wc`, `prelock`
  (the mutex and the condition variable are modelled by the step relation:
  every event below is one critical section executed with `mtx` held).
* `RwLock.readPass`, `RwLock.writeEntry`, `RwLock.writePass`,
  `ReadGuard.dtor`, `WriteGuard.dtor` are the critical sections of
  `read()`, `write()` and of the two destructors.
* `Sys` adds the calls that are in flight (blocked in `cond_var.wait`,
  woken, holding a guard, finished); `step` is the scheduler.

The counters are C++ `int`s; they are modelled by `Int` (the specification
places counts beyond the platform integer range out of scope).  The guard
returned by `read()` / `write()` is the local `guard` object itself (the
return is elided), so one grant creates one guard.
-/

namespace RwLockSpec

/-! ## The lock object -/

/-- Data members of `RwLock<T>` (lines 33-38), without `mtx` and `cond_var`. -/
structure RwLock (T : Type) where
  data : T
  rc : Int
  wc : Int
  prelock : Bool
  deriving DecidableEq, Repr

/-- Notification issued on the condition variable by a critical section. -/
inductive Notify
  | silent
  | one
  | all
  deriving DecidableEq, Repr

variable {T : Type}

/-- Constructor `RwLock<T>::RwLock()` (line 46): `rc = wc = 0; prelock = false`.
The argument is the value that the default initialisation of `T data` leaves
in the member. -/
def RwLock.ctor (d : T) : RwLock T :=
  { data := d, rc := 0, wc := 0, prelock := false }

/-- Loop condition of `read()` (line 111): `wc > 0 || prelock`. -/
def RwLock.readCond (l : RwLock T) : Bool :=
  decide (l.wc > 0) || l.prelock

/-- Lines 115-117 of `read()`: `++rc`, the guard is bound to the lock. -/
def RwLock.readGrant (l : RwLock T) : RwLock T :=
  { l with rc := l.rc + 1 }

/-- One pass of `read()` with the mutex held: evaluate the loop condition;
either go (back) to `cond_var.wait` with the state untouched, or grant.
The flag tells whether the guard was returned. -/
def RwLock.readPass (l : RwLock T) : RwLock T × Bool :=
  if l.readCond then (l, false) else (l.readGrant, true)

/-- Line 124 of `write()`: `prelock = true`. -/
def RwLock.setPrelock (l : RwLock T) : RwLock T :=
  { l with prelock := true }

/-- Loop condition of `write()` (line 125): `rc > 0 || wc > 0`. -/
def RwLock.writeCond (l : RwLock T) : Bool :=
  decide (l.rc > 0) || decide (l.wc > 0)

/-- Line 129 of `write()`: `++wc`. -/
def RwLock.incWc (l : RwLock T) : RwLock T :=
  { l with wc := l.wc + 1 }

/-- Line 131 of `write()`: `prelock = false`. -/
def RwLock.clearPrelock (l : RwLock T) : RwLock T :=
  { l with prelock := false }

/-- Lines 129-132 of `write()`: `++wc`, then `prelock = false`. -/
def RwLock.writeGrant (l : RwLock T) : RwLock T :=
  l.incWc.clearPrelock

/-- One pass of the loop of `write()` with the mutex held (lines 125-132). -/
def RwLock.writePass (l : RwLock T) : RwLock T × Bool :=
  if l.writeCond then (l, false) else (l.writeGrant, true)

/-- First critical section of `write()` (lines 122-132): raise `prelock`,
then run the loop once. -/
def RwLock.writeEntry (l : RwLock T) : RwLock T × Bool :=
  l.setPrelock.writePass

/-- Destructor `ReadGuard<T>::~ReadGuard()` (lines 136-142). -/
def ReadGuard.dtor (l : RwLock T) : RwLock T × Notify :=
  let l1 : RwLock T := { l with rc := l.rc - 1 }
  (l1, if l1.rc < 1 then Notify.one else Notify.silent)

/-- Destructor `WriteGuard<T>::~WriteGuard()` (lines 145-149). -/
def WriteGuard.dtor (l : RwLock T) : RwLock T × Notify :=
  ({ l with wc := l.wc - 1 }, Notify.all)

/-- Read access `ReadGuard<T>::data()` (lines 59-61). -/
def ReadGuard.data (l : RwLock T) : T := l.data

/-- Read through `WriteGuard<T>::data()` (lines 85-87). -/
def WriteGuard.data (l : RwLock T) : T := l.data

/-- Store through the reference returned by `WriteGuard<T>::data()` or
`operator->` (lines 85-91). -/
def WriteGuard.store (l : RwLock T) (v : T) : RwLock T :=
  { l with data := v }

/-! ## Calls in flight and the scheduler -/

/-- Where a call of `read()` / `write()` stands. -/
inductive Phase
  | rWait   -- read(): inside cond_var.wait
  | rWoken  -- read(): woken, has to take the mutex and test the loop condition
  | rHeld   -- read() returned, the read guard is live
  | rDone   -- the read guard has been destroyed
  | wWait   -- write(): inside cond_var.wait
  | wWoken  -- write(): woken, has to take the mutex and test the loop condition
  | wHeld   -- write() returned, the write guard is live
  | wDone   -- the write guard has been destroyed
  deriving DecidableEq, Repr

/-- The call sleeps on the condition variable. -/
def Phase.waiting : Phase → Bool
  | Phase.rWait => true
  | Phase.wWait => true
  | _ => false

/-- Effect of a wake-up on a call. -/
def Phase.wake : Phase → Phase
  | Phase.rWait => Phase.rWoken
  | Phase.wWait => Phase.wWoken
  | p => p

/-- A `read()` call that has begun and has not been granted. -/
def Phase.readPending : Phase → Bool
  | Phase.rWait => true
  | Phase.rWoken => true
  | _ => false

/-- A `write()` call that has entered and has not been granted. -/
def Phase.writePending : Phase → Bool
  | Phase.wWait => true
  | Phase.wWoken => true
  | _ => false

/-- A live read guard. -/
def Phase.readLive : Phase → Bool
  | Phase.rHeld => true
  | _ => false

/-- A live write guard. -/
def Phase.writeLive : Phase → Bool
  | Phase.wHeld => true
  | _ => false

/-- A read call that has been granted (its guard is live or destroyed). -/
def Phase.readGranted : Phase → Bool
  | Phase.rHeld => true
  | Phase.rDone => true
  | _ => false

/-- The lock together with the calls made so far; call `i` is `calls[i]`. -/
structure Sys (T : Type) where
  lock : RwLock T
  calls : List Phase
  deriving DecidableEq, Repr

/-- A freshly constructed lock, no call made yet. -/
def Sys.init (d : T) : Sys T :=
  { lock := RwLock.ctor d, calls := [] }

/-- Scheduler events; each is one critical section (or one access through a
guard). -/
inductive Event (T : Type)
  | read                        -- a new read() call, up to its first wait or its return
  | write                       -- a new write() call, up to its first wait or its return
  | resume (i : Nat)            -- woken call i takes the mutex and tests its loop condition
  | spurious (i : Nat)          -- spurious wake-up of the waiting call i
  | dropRead (i : Nat) (k : Nat) -- destructor of read guard i; notify_one picks waiter k
  | dropWrite (i : Nat)         -- destructor of write guard i
  | store (i : Nat) (v : T)     -- store v through write guard i
  deriving DecidableEq, Repr

/-- Effect of `notify_all`: every sleeping call is woken. -/
def notifyAll (cs : List Phase) : List Phase :=
  cs.map Phase.wake

/-- Effect of `notify_one` when the implementation picks call `k`: without a
sleeping call nothing happens; otherwise `k` has to be a sleeping call, and it
is woken. -/
def notifyOne (k : Nat) (cs : List Phase) : Option (List Phase) :=
  if cs.any Phase.waiting then
    match cs[k]? with
    | some p => if p.waiting then some (cs.set k p.wake) else none
    | none => none
  else some cs

/-- Delivery of the notification of a critical section. -/
def deliver (n : Notify) (k : Nat) (cs : List Phase) : Option (List Phase) :=
  match n with
  | Notify.silent => some cs
  | Notify.one => notifyOne k cs
  | Notify.all => some (notifyAll cs)

/-- One scheduler step; `none` when the event is not enabled. -/
def step (e : Event T) (s : Sys T) : Option (Sys T) :=
  match e with
  | Event.read =>
      let r := s.lock.readPass
      some { lock := r.1, calls := s.calls ++ [if r.2 then Phase.rHeld else Phase.rWait] }
  | Event.write =>
      let r := s.lock.writeEntry
      some { lock := r.1, calls := s.calls ++ [if r.2 then Phase.wHeld else Phase.wWait] }
  | Event.resume i =>
      match s.calls[i]? with
      | some Phase.rWoken =>
          let r := s.lock.readPass
          some { lock := r.1, calls := s.calls.set i (if r.2 then Phase.rHeld else Phase.rWait) }
      | some Phase.wWoken =>
          let r := s.lock.writePass
          some { lock := r.1, calls := s.calls.set i (if r.2 then Phase.wHeld else Phase.wWait) }
      | _ => none
  | Event.spurious i =>
      match s.calls[i]? with
      | some p => if p.waiting then some { s with calls := s.calls.set i p.wake } else none
      | none => none
  | Event.dropRead i k =>
      match s.calls[i]? with
      | some Phase.rHeld =>
          let r := ReadGuard.dtor s.lock
          match deliver r.2 k (s.calls.set i Phase.rDone) with
          | some cs => some { lock := r.1, calls := cs }
          | none => none
      | _ => none
  | Event.dropWrite i =>
      match s.calls[i]? with
      | some Phase.wHeld =>
          let r := WriteGuard.dtor s.lock
          match deliver r.2 0 (s.calls.set i Phase.wDone) with
          | some cs => some { lock := r.1, calls := cs }
          | none => none
      | _ => none
  | Event.store i v =>
      match s.calls[i]? with
      | some Phase.wHeld => some { s with lock := WriteGuard.store s.lock v }
      | _ => none

/-- Run a schedule from a state; `none` when some event is not enabled. -/
def run : List (Event T) → Sys T → Option (Sys T)
  | [], s => some s
  | e :: es, s =>
      match step e s with
      | some s1 => run es s1
      | none => none

/-- States reachable from a freshly constructed lock. -/
def Reachable (d : T) (s : Sys T) : Prop :=
  ∃ tr : List (Event T), run tr (Sys.init d) = some s

/-- Number of live read guards. -/
def Sys.liveReads (s : Sys T) : Nat := s.calls.countP Phase.readLive

/-- Number of live write guards. -/
def Sys.liveWrites (s : Sys T) : Nat := s.calls.countP Phase.writeLive

/-- Number of `write()` calls entered and not yet granted. -/
def Sys.pendingWrites (s : Sys T) : Nat := s.calls.countP Phase.writePending

/-- Number of `read()` calls begun and not yet granted. -/
def Sys.pendingReads (s : Sys T) : Nat := s.calls.countP Phase.readPending

/-! ## The invariant of the scheduler -/

/-- Counters agree with the guards that are live, guards exclude each other,
and a raised `prelock` has a pending writer behind it. -/
structure Inv (s : Sys T) : Prop where
  rc_eq : s.lock.rc = (s.liveReads : Int)
  wc_eq : s.lock.wc = (s.liveWrites : Int)
  excl : s.liveWrites = 0 ∨ (s.liveWrites = 1 ∧ s.liveReads = 0)
  flag : s.lock.prelock = true → 0 < s.pendingWrites

/-! ## Schedules and states used as instances -/

/-- A schedule with two readers inside and a writer blocked behind them. -/
def trTwoReaders : List (Event Int) := [Event.read, Event.read, Event.write]

/-- State reached by `trTwoReaders`. -/
def stTwoReaders : Sys Int :=
  { lock := { data := 0, rc := 2, wc := 0, prelock := true },
    calls := [Phase.rHeld, Phase.rHeld, Phase.wWait] }

/-- A schedule in which a writer is inside and a reader sleeps behind it. -/
def trWriterInside : List (Event Int) := [Event.write, Event.read]

/-- State reached by `trWriterInside`. -/
def stWriterInside : Sys Int :=
  { lock := { data := 0, rc := 0, wc := 1, prelock := false },
    calls := [Phase.wHeld, Phase.rWait] }

/-- The sequential schedule: `N` calls of `read()`, then the `N` guards are
destroyed in the order they were obtained. -/
def trReadsThenDrops (T : Type) (N : Nat) : List (Event T) :=
  List.replicate N Event.read ++ (List.range' 0 N).map (fun i => Event.dropRead i 0)

/-- A schedule in which a reader was blocked by a writer that has left. -/
def trWriterLeft : List (Event Int) := [Event.write, Event.read, Event.dropWrite 0]

/-- State reached by `trWriterLeft`. -/
def stWriterLeft : Sys Int :=
  { lock := { data := 0, rc := 0, wc := 0, prelock := false },
    calls := [Phase.wDone, Phase.rWoken] }

/-! ## Writer priority and the wake-up of a pending writer, as properties -/

/-- Writer priority as a property of reachable states: while the `write()` call
`w` is pending, no `read()` call begun after it (calls are numbered in the order
in which they begin) has been granted. -/
def WriterPriority (d : T) : Prop :=
  ∀ (s : Sys T), Reachable d s →
    ∀ (w r : Nat) (pw pr : Phase), w < r →
      s.calls[w]? = some pw → pw.writePending = true →
      s.calls[r]? = some pr → pr.readGranted = false

/-- Schedule: a reader is inside; two writers enter and block; the reader
leaves and wakes the first writer, which is granted (clearing `prelock`) and
leaves; a new reader arrives while the second writer has not yet run. -/
def trOvertake : List (Event Int) :=
  [Event.read, Event.write, Event.write, Event.dropRead 0 1, Event.resume 1,
   Event.dropWrite 1, Event.read]

/-- State reached by `trOvertake`. -/
def stOvertake : Sys Int :=
  { lock := { data := 0, rc := 1, wc := 0, prelock := false },
    calls := [Phase.rDone, Phase.wDone, Phase.wWoken, Phase.rHeld] }

/-- The event is the re-test of a woken call. -/
def Event.isResume : Event T → Bool
  | Event.resume _ => true
  | _ => false

/-- The release of the last read guard lets a writer in: once `rc` has dropped
to 0 with a writer asleep, some write guard becomes live by the woken calls
testing their conditions, with no further release, notification or wake-up. -/
def ReaderReleaseWakesWriter (d : T) : Prop :=
  ∀ (s s1 : Sys T) (i k : Nat), Reachable d s →
    step (Event.dropRead i k) s = some s1 → s1.lock.rc = 0 →
    (∃ w : Nat, s.calls[w]? = some Phase.wWait) →
    ∃ (tr : List (Event T)) (s2 : Sys T),
      tr.all Event.isResume = true ∧ run tr s1 = some s2 ∧ 0 < s2.liveWrites

/-- Schedule: a reader is inside; a writer enters and blocks; a second reader
arrives and blocks on `prelock`. -/
def trMixedWaiters : List (Event Int) := [Event.read, Event.write, Event.read]

/-- State reached by `trMixedWaiters`. -/
def stMixedWaiters : Sys Int :=
  { lock := { data := 0, rc := 1, wc := 0, prelock := true },
    calls := [Phase.rHeld, Phase.wWait, Phase.rWait] }

/-- State after the reader left and `notify_one` woke the blocked reader. -/
def stReaderWoken : Sys Int :=
  { lock := { data := 0, rc := 0, wc := 0, prelock := true },
    calls := [Phase.rDone, Phase.wWait, Phase.rWoken] }

/-- State after the woken reader found `prelock` raised and went back to sleep. -/
def stAllAsleep : Sys Int :=
  { lock := { data := 0, rc := 0, wc := 0, prelock := true },
    calls := [Phase.rDone, Phase.wWait, Phase.rWait] }

/-! ## Writer threads incrementing an integer payload -/

/-- Control point of a thread that runs, `left` more times, the block
`{ auto g = lock.write(); int v = g.data(); g.data() = v + 1; }`. -/
inductive Pc
  | idle              -- between two iterations
  | wait              -- in write(): inside cond_var.wait
  | woken             -- in write(): woken, has to test the loop condition
  | held              -- the write guard is live, the payload not yet read
  | loaded (v : Int)  -- the payload has been read into the local v
  | stored            -- v + 1 has been stored, the guard is still live
  deriving DecidableEq, Repr

/-- A writer thread: iterations still to run (the current one included) and its
control point. -/
structure Worker where
  left : Nat
  pc : Pc
  deriving DecidableEq, Repr

/-- The lock with an integer payload and the writer threads. -/
structure IncSys where
  lock : RwLock Int
  ws : List Worker
  deriving DecidableEq, Repr

/-- Scheduler events of the writer threads. -/
inductive IncEvent
  | call (t : Nat)      -- thread t calls write(), up to its first wait or its return
  | resume (t : Nat)    -- woken thread t takes the mutex and tests the loop condition
  | spurious (t : Nat)  -- spurious wake-up of thread t
  | load (t : Nat)      -- thread t reads the payload through its guard
  | store (t : Nat)     -- thread t stores v + 1 through its guard
  | drop (t : Nat)      -- the guard of thread t is destroyed at the end of the block
  deriving DecidableEq, Repr

/-- Effect of a wake-up on a thread. -/
def Worker.wake (w : Worker) : Worker :=
  match w.pc with
  | Pc.wait => { w with pc := Pc.woken }
  | _ => w

/-- Delivery of a notification to the threads (the write destructor only
broadcasts). -/
def deliverWorkers (n : Notify) (ws : List Worker) : List Worker :=
  match n with
  | Notify.all => ws.map Worker.wake
  | _ => ws

/-- One scheduler step of the writer threads; `none` when not enabled. -/
def incStep (e : IncEvent) (s : IncSys) : Option IncSys :=
  match e with
  | IncEvent.call t =>
      match s.ws[t]? with
      | some w =>
          if w.pc = Pc.idle ∧ 0 < w.left then
            let r := s.lock.writeEntry
            some { lock := r.1, ws := s.ws.set t { w with pc := (if r.2 then Pc.held else Pc.wait) } }
          else none
      | none => none
  | IncEvent.resume t =>
      match s.ws[t]? with
      | some w =>
          if w.pc = Pc.woken then
            let r := s.lock.writePass
            some { lock := r.1, ws := s.ws.set t { w with pc := (if r.2 then Pc.held else Pc.wait) } }
          else none
      | none => none
  | IncEvent.spurious t =>
      match s.ws[t]? with
      | some w =>
          if w.pc = Pc.wait then some { s with ws := s.ws.set t { w with pc := Pc.woken } }
          else none
      | none => none
  | IncEvent.load t =>
      match s.ws[t]? with
      | some w =>
          if w.pc = Pc.held then
            some { s with ws := s.ws.set t { w with pc := Pc.loaded (WriteGuard.data s.lock) } }
          else none
      | none => none
  | IncEvent.store t =>
      match s.ws[t]? with
      | some w =>
          match w.pc with
          | Pc.loaded v =>
              some { lock := WriteGuard.store s.lock (v + 1),
                     ws := s.ws.set t { w with pc := Pc.stored } }
          | _ => none
      | none => none
  | IncEvent.drop t =>
      match s.ws[t]? with
      | some w =>
          if w.pc = Pc.stored then
            let r := WriteGuard.dtor s.lock
            some { lock := r.1,
                   ws := deliverWorkers r.2 (s.ws.set t { left := w.left - 1, pc := Pc.idle }) }
          else none
      | none => none

/-- Run a schedule of the writer threads. -/
def incRun : List IncEvent → IncSys → Option IncSys
  | [], s => some s
  | e :: es, s =>
      match incStep e s with
      | some s1 => incRun es s1
      | none => none

/-- Start: a fresh lock holding `d`, and `K` threads with `M` iterations each. -/
def IncSys.init (K M : Nat) (d : Int) : IncSys :=
  { lock := RwLock.ctor d, ws := List.replicate K { left := M, pc := Pc.idle } }

/-- The execution is complete: every thread has run all its iterations. -/
def IncSys.complete (s : IncSys) : Bool :=
  s.ws.all (fun w => decide (w.left = 0) && decide (w.pc = Pc.idle))

/-- The thread holds a live write guard. -/
def Worker.holds (w : Worker) : Bool :=
  match w.pc with
  | Pc.held => true
  | Pc.loaded _ => true
  | Pc.stored => true
  | _ => false

/-- Increments the thread has still to store. -/
def Worker.rem (w : Worker) : Nat :=
  match w.pc with
  | Pc.stored => w.left - 1
  | _ => w.left

/-- The local copy of the payload, if any, is the current payload. -/
def Worker.fresh (data : Int) (w : Worker) : Bool :=
  match w.pc with
  | Pc.loaded v => decide (v = data)
  | _ => true

/-- A thread inside an iteration has that iteration left. -/
def Worker.active (w : Worker) : Bool :=
  decide (w.pc = Pc.idle) || decide (0 < w.left)

/-- Invariant of the writer threads: no reader, `wc` counts the threads holding
a guard, at most one holds, local copies are current, and the payload plus the
increments still to come is the expected total. -/
structure IncInv (total : Int) (s : IncSys) : Prop where
  rc0 : s.lock.rc = 0
  wc_eq : s.lock.wc = (s.ws.countP Worker.holds : Int)
  excl : s.ws.countP Worker.holds ≤ 1
  fresh : ∀ w ∈ s.ws, w.fresh s.lock.data = true
  act : ∀ w ∈ s.ws, w.active = true
  sum : s.lock.data + ((s.ws.map Worker.rem).sum : Int) = total

/-- Two threads, one iteration each; the second blocks behind the first. -/
def trTwoIncrements : List IncEvent :=
  [IncEvent.call 0, IncEvent.call 1, IncEvent.load 0, IncEvent.store 0, IncEvent.drop 0,
   IncEvent.resume 1, IncEvent.load 1, IncEvent.store 1, IncEvent.drop 1]

/-- State reached by `trTwoIncrements` from payload 5. -/
def stTwoIncrements : IncSys :=
  { lock := { data := 7, rc := 0, wc := 0, prelock := false },
    ws := [{ left := 0, pc := Pc.idle }, { left := 0, pc := Pc.idle }] }

/-- One iteration of thread `t`, run without interruption. -/
def incBlock (t : Nat) : List IncEvent :=
  [IncEvent.call t, IncEvent.load t, IncEvent.store t, IncEvent.drop t]

/-- Thread `t` runs `m` iterations in a row. -/
def incRepeat (t : Nat) : Nat → List IncEvent
  | 0 => []
  | m + 1 => incBlock t ++ incRepeat t m

/-- Threads `a`, `a + 1`, ..., `a + n - 1` run one after the other, `M` iterations
each. -/
def trSequentialFrom (M : Nat) : Nat → Nat → List IncEvent
  | _, 0 => []
  | a, n + 1 => incRepeat a M ++ trSequentialFrom M (a + 1) n

/-- The sequential schedule of `K` threads with `M` iterations each. -/
def trSequential (K M : Nat) : List IncEvent := trSequentialFrom M 0 K

/-! ## Assignment through a write guard -/

/-- Argument `const T& other` of `WriteGuard<T>::operator=`: the reference
either designates the protected member itself (`&lock.data == &other`) or
another object, whose value is `v`. -/
inductive Arg (T : Type)
  | self
  | other (v : T)
  deriving DecidableEq, Repr

/-- Value read through the reference. -/
def Arg.value (l : RwLock T) : Arg T → T
  | Arg.self => l.data
  | Arg.other v => v

/-- Operator `WriteGuard<T>::operator=` (lines 93-98): the early return when the
argument is the member itself, otherwise `lock.data = other`; the second
component is the value of the returned reference `lock.data`. -/
def WriteGuard.assign (l : RwLock T) (a : Arg T) : RwLock T × T :=
  match a with
  | Arg.self => (l, l.data)
  | Arg.other v =>
      let l1 : RwLock T := { l with data := v }
      (l1, l1.data)

/-! ## The meaning of `prelock`, as a property -/

/-- The flag `prelock` is raised exactly while some `write()` call has entered
and has not been granted. -/
def FlagMeansPending (d : T) : Prop :=
  ∀ (s : Sys T), Reachable d s → (s.lock.prelock = true ↔ 0 < s.pendingWrites)

/-- Schedule: a reader is inside; two writers enter and block; the reader
leaves and wakes the first writer, which is granted. -/
def trFlagCleared : List (Event Int) :=
  [Event.read, Event.write, Event.write, Event.dropRead 0 1, Event.resume 1]

/-- State reached by `trFlagCleared`: the second writer is still asleep. -/
def stFlagCleared : Sys Int :=
  { lock := { data := 0, rc := 0, wc := 1, prelock := false },
    calls := [Phase.rDone, Phase.wHeld, Phase.wWait] }

/-- A schedule that leaves a reader and a writer pending with no guard live:
the reader blocked behind a writer that has left, the writer entered since. -/
def trBothPending : List (Event Int) :=
  [Event.write, Event.read, Event.write, Event.dropWrite 0]

/-- State reached by `trBothPending`. -/
def stBothPending : Sys Int :=
  { lock := { data := 0, rc := 0, wc := 0, prelock := true },
    calls := [Phase.wDone, Phase.rWoken, Phase.wWoken] }

/-! ## The public interface of the guards -/

/-- Operations open to client code: the scheduler events, and the copy
constructor of each guard class. Neither `ReadGuard` (lines 52-69) nor
`WriteGuard` (lines 78-102) declares or deletes a copy constructor, so the
implicit public one exists; it copies the reference member `lock` and touches
no counter. -/
inductive PubEvent (T : Type)
  | op (e : Event T)     -- an event of the scheduler
  | copyRead (i : Nat)   -- copy construction from the live read guard i
  | copyWrite (i : Nat)  -- copy construction from the live write guard i
  deriving DecidableEq, Repr

/-- One step over the public interface: a copy is one more live guard object
bound to the same lock, the lock itself is not touched. -/
def pubStep (e : PubEvent T) (s : Sys T) : Option (Sys T) :=
  match e with
  | PubEvent.op e0 => step e0 s
  | PubEvent.copyRead i =>
      match s.calls[i]? with
      | some Phase.rHeld => some { s with calls := s.calls ++ [Phase.rHeld] }
      | _ => none
  | PubEvent.copyWrite i =>
      match s.calls[i]? with
      | some Phase.wHeld => some { s with calls := s.calls ++ [Phase.wHeld] }
      | _ => none

/-- Run a sequence of public operations. -/
def pubRun : List (PubEvent T) → Sys T → Option (Sys T)
  | [], s => some s
  | e :: es, s =>
      match pubStep e s with
      | some s1 => pubRun es s1
      | none => none

/-- Over every sequence of public operations the counters stay non-negative. -/
def CountersNonNegative (d : T) : Prop :=
  ∀ (tr : List (PubEvent T)) (s : Sys T), pubRun tr (Sys.init d) = some s →
    0 ≤ s.lock.rc ∧ 0 ≤ s.lock.wc

/-- Client code: take a read guard, copy it, destroy the copy and then the
guard. -/
def trCopyRead : List (PubEvent Int) :=
  [PubEvent.op Event.read, PubEvent.copyRead 0, PubEvent.op (Event.dropRead 1 0),
   PubEvent.op (Event.dropRead 0 0)]

/-- Client code: take a write guard, copy it, destroy the copy; then a reader
arrives while the write guard is still live. -/
def trCopyWrite : List (PubEvent Int) :=
  [PubEvent.op Event.write, PubEvent.copyWrite 0, PubEvent.op (Event.dropWrite 1),
   PubEvent.op Event.read]

/-! ## The value and its writers -/

/-- Value of the payload after an event, given the value `d` before it: only a
store through a write guard changes it. -/
def Event.valueAfter (d : T) : Event T → T
  | Event.store _ v => v
  | _ => d

/-- The value left by the most recent store of a schedule, the initial value
when the schedule has none. -/
def lastWrite (d : T) (tr : List (Event T)) : T :=
  tr.foldl Event.valueAfter d

/-- A schedule with two stores by a writer, then a reader. -/
def trStoreTwice : List (Event Int) :=
  [Event.write, Event.store 0 4, Event.store 0 9, Event.dropWrite 0, Event.read]

/-- State reached by `trStoreTwice`. -/
def stStoreTwice : Sys Int :=
  { lock := { data := 9, rc := 1, wc := 0, prelock := false },
    calls := [Phase.wDone, Phase.rHeld] }

/-! ## Notifications at release, as a property -/

/-- Every destruction of a live guard issues a wake notification. -/
def UnconditionalNotify (d : T) : Prop :=
  ∀ (s : Sys T), Reachable d s →
    (0 < s.liveReads → (ReadGuard.dtor s.lock).2 ≠ Notify.silent) ∧
    (0 < s.liveWrites → (WriteGuard.dtor s.lock).2 ≠ Notify.silent)

/-- Constructor `RwLock<T>::RwLock()` (lines 45-46) run on raw storage `mem`.
The member `T data` (line 33) has no initialiser, so it is default-initialised
before the body runs: for a class type the default constructor of `T` runs and
yields `v` (`dinit = some v`); for a scalar type no initialisation is performed
(`dinit = none`) and the member keeps what the storage held. The body then
assigns `rc = wc = 0; prelock = false`. -/
def RwLock.ctorAt (dinit : Option T) (mem : RwLock T) : RwLock T :=
  let l0 : RwLock T :=
    match dinit with
    | some v => { mem with data := v }
    | none => mem
  { l0 with rc := 0, wc := 0, prelock := false }

/-- A newly constructed lock holds the default value `dflt` of `T`, whatever
the storage it is built on held. -/
def ConstructionHoldsDefault (dinit : Option T) (dflt : T) : Prop :=
  ∀ mem : RwLock T, (RwLock.ctorAt dinit mem).data = dflt

/-- Storage with arbitrary content, on which a lock over `int` is built. -/
def rawStorage : RwLock Int :=
  { data := 7, rc := 3, wc := -2, prelock := true }

/-! ## Lock states with a negative counter -/

/-- Client code: take a write guard, copy it, destroy the copy and then the
guard. -/
def trCopyWriteBoth : List (PubEvent Int) :=
  [PubEvent.op Event.write, PubEvent.copyWrite 0, PubEvent.op (Event.dropWrite 1),
   PubEvent.op (Event.dropWrite 0)]

/-- State reached by `trCopyWriteBoth`: `wc == -1`. -/
def stNegativeWc : Sys Int :=
  { lock := { data := 0, rc := 0, wc := -1, prelock := false },
    calls := [Phase.wDone, Phase.wDone] }

/-- State reached by `trCopyRead`: `rc == -1`. -/
def stNegativeRc : Sys Int :=
  { lock := { data := 0, rc := -1, wc := 0, prelock := false },
    calls := [Phase.rDone, Phase.rDone] }

/-! ## Counting lemmas -/

theorem countP_set_get {α : Type} (f : α → Bool) :
    ∀ (cs : List α) (i : Nat) (p q : α), cs[i]? = some p →
      (cs.set i q).countP f + (if f p then 1 else 0)
        = cs.countP f + (if f q then 1 else 0) := by
  intro cs
  induction cs with
  | nil => intro i p q h; simp at h
  | cons c cs ih =>
    intro i p q h
    cases i with
    | zero =>
      simp at h
      subst h
      simp only [List.set_cons_zero, List.countP_cons]
      omega
    | succ j =>
      simp at h
      have := ih j p q h
      simp only [List.set_cons_succ, List.countP_cons]
      omega

theorem countP_notifyAll (f : Phase → Bool) (hf : ∀ p, f p.wake = f p) (cs : List Phase) :
    (notifyAll cs).countP f = cs.countP f := by
  unfold notifyAll
  induction cs with
  | nil => rfl
  | cons c cs ih => simp only [List.map_cons, List.countP_cons, ih, hf]

theorem countP_notifyOne (f : Phase → Bool) (hf : ∀ p, f p.wake = f p) (k : Nat)
    (cs cs1 : List Phase) (h : notifyOne k cs = some cs1) :
    cs1.countP f = cs.countP f := by
  unfold notifyOne at h
  split at h
  · split at h
    · rename_i p hp
      split at h
      · simp only [Option.some.injEq] at h
        subst h
        have := countP_set_get f cs k p p.wake hp
        rw [hf] at this
        omega
      · simp at h
    · simp at h
  · simp only [Option.some.injEq] at h
    subst h
    rfl

theorem countP_deliver (f : Phase → Bool) (hf : ∀ p, f p.wake = f p) (n : Notify) (k : Nat)
    (cs cs1 : List Phase) (h : deliver n k cs = some cs1) :
    cs1.countP f = cs.countP f := by
  cases n with
  | silent => simp [deliver] at h; subst h; rfl
  | one => exact countP_notifyOne f hf k cs cs1 h
  | all => simp [deliver] at h; subst h; exact countP_notifyAll f hf cs

theorem readLive_wake (p : Phase) : p.wake.readLive = p.readLive := by cases p <;> rfl
theorem writeLive_wake (p : Phase) : p.wake.writeLive = p.writeLive := by cases p <;> rfl
theorem writePending_wake (p : Phase) : p.wake.writePending = p.writePending := by
  cases p <;> rfl
theorem readPending_wake (p : Phase) : p.wake.readPending = p.readPending := by
  cases p <;> rfl

/-! ## The invariant is kept by every step -/

theorem inv_init (d : T) : Inv (Sys.init d) := by
  constructor <;> simp [Sys.init, RwLock.ctor, Sys.liveReads, Sys.liveWrites, Sys.pendingWrites]

theorem countP_snoc (f : Phase → Bool) (cs : List Phase) (p : Phase) :
    (cs ++ [p]).countP f = cs.countP f + (if f p then 1 else 0) := by
  rw [List.countP_append, List.countP_cons, List.countP_nil]
  simp

theorem inv_read (s : Sys T) (h : Inv s) :
    Inv { lock := s.lock.readPass.1,
          calls := s.calls ++ [if s.lock.readPass.2 then Phase.rHeld else Phase.rWait] } := by
  obtain ⟨h1, h2, h3, h4⟩ := h
  unfold Sys.liveReads Sys.liveWrites Sys.pendingWrites at *
  unfold RwLock.readPass
  by_cases hc : s.lock.readCond = true
  · simp only [hc, if_true]
    constructor <;>
      simp only [Sys.liveReads, Sys.liveWrites, Sys.pendingWrites, countP_snoc,
        Phase.readLive, Phase.writeLive, Phase.writePending, Bool.false_eq_true,
        ↓reduceIte, Nat.add_zero] <;>
      assumption
  · simp only [hc]
    simp only [RwLock.readCond, Bool.or_eq_true, decide_eq_true_eq, not_or] at hc
    constructor <;>
      simp only [Sys.liveReads, Sys.liveWrites, Sys.pendingWrites, countP_snoc,
        Phase.readLive, Phase.writeLive, Phase.writePending, RwLock.readGrant,
        Bool.false_eq_true, ↓reduceIte, Nat.add_zero] <;>
      first | assumption | omega

theorem inv_write (s : Sys T) (h : Inv s) :
    Inv { lock := s.lock.writeEntry.1,
          calls := s.calls ++ [if s.lock.writeEntry.2 then Phase.wHeld else Phase.wWait] } := by
  obtain ⟨h1, h2, h3, h4⟩ := h
  unfold Sys.liveReads Sys.liveWrites Sys.pendingWrites at *
  unfold RwLock.writeEntry RwLock.writePass
  by_cases hc : s.lock.setPrelock.writeCond = true
  · simp only [hc, if_true]
    constructor <;>
      simp only [Sys.liveReads, Sys.liveWrites, Sys.pendingWrites, countP_snoc,
        Phase.readLive, Phase.writeLive, Phase.writePending, Bool.false_eq_true,
        RwLock.setPrelock, ↓reduceIte, Nat.add_zero] <;>
      first | assumption | omega
  · simp only [hc]
    simp only [RwLock.writeCond, RwLock.setPrelock, Bool.or_eq_true, decide_eq_true_eq,
      not_or] at hc
    constructor <;>
      simp only [Sys.liveReads, Sys.liveWrites, Sys.pendingWrites, countP_snoc,
        Phase.readLive, Phase.writeLive, Phase.writePending, RwLock.writeGrant,
        RwLock.incWc, RwLock.clearPrelock, RwLock.setPrelock,
        Bool.false_eq_true, ↓reduceIte, Nat.add_zero] <;>
      first | assumption | omega | (intro hq; cases hq)

theorem inv_resume_read (s : Sys T) (i : Nat) (h : Inv s) (hi : s.calls[i]? = some Phase.rWoken) :
    Inv { lock := s.lock.readPass.1,
          calls := s.calls.set i (if s.lock.readPass.2 then Phase.rHeld else Phase.rWait) } := by
  obtain ⟨h1, h2, h3, h4⟩ := h
  unfold Sys.liveReads Sys.liveWrites Sys.pendingWrites at *
  unfold RwLock.readPass
  by_cases hc : s.lock.readCond = true
  · simp only [hc, if_true]
    have e1 := countP_set_get Phase.readLive s.calls i _ Phase.rWait hi
    have e2 := countP_set_get Phase.writeLive s.calls i _ Phase.rWait hi
    have e3 := countP_set_get Phase.writePending s.calls i _ Phase.rWait hi
    simp only [Phase.readLive, Phase.writeLive, Phase.writePending, Bool.false_eq_true,
      ↓reduceIte, Nat.add_zero] at e1 e2 e3
    constructor <;>
      simp only [Sys.liveReads, Sys.liveWrites, Sys.pendingWrites, Bool.false_eq_true,
        ↓reduceIte, e1, e2, e3] <;>
      assumption
  · simp only [hc]
    simp only [RwLock.readCond, Bool.or_eq_true, decide_eq_true_eq, not_or] at hc
    have e1 := countP_set_get Phase.readLive s.calls i _ Phase.rHeld hi
    have e2 := countP_set_get Phase.writeLive s.calls i _ Phase.rHeld hi
    have e3 := countP_set_get Phase.writePending s.calls i _ Phase.rHeld hi
    simp only [Phase.readLive, Phase.writeLive, Phase.writePending, Bool.false_eq_true,
      ↓reduceIte, Nat.add_zero] at e1 e2 e3
    constructor <;>
      simp only [Sys.liveReads, Sys.liveWrites, Sys.pendingWrites, RwLock.readGrant,
        Bool.false_eq_true, ↓reduceIte, e1, e2, e3] <;>
      first | assumption | omega

theorem inv_resume_write (s : Sys T) (i : Nat) (h : Inv s)
    (hi : s.calls[i]? = some Phase.wWoken) :
    Inv { lock := s.lock.writePass.1,
          calls := s.calls.set i (if s.lock.writePass.2 then Phase.wHeld else Phase.wWait) } := by
  obtain ⟨h1, h2, h3, h4⟩ := h
  unfold Sys.liveReads Sys.liveWrites Sys.pendingWrites at *
  unfold RwLock.writePass
  by_cases hc : s.lock.writeCond = true
  · simp only [hc, if_true]
    have e1 := countP_set_get Phase.readLive s.calls i _ Phase.wWait hi
    have e2 := countP_set_get Phase.writeLive s.calls i _ Phase.wWait hi
    have e3 := countP_set_get Phase.writePending s.calls i _ Phase.wWait hi
    simp only [Phase.readLive, Phase.writeLive, Phase.writePending, Bool.false_eq_true,
      ↓reduceIte, Nat.add_zero] at e1 e2 e3
    constructor <;>
      simp only [Sys.liveReads, Sys.liveWrites, Sys.pendingWrites, Bool.false_eq_true,
        ↓reduceIte] <;>
      first | assumption | omega | (intro hq; have := h4 hq; omega)
  · simp only [hc]
    simp only [RwLock.writeCond, Bool.or_eq_true, decide_eq_true_eq, not_or] at hc
    have e1 := countP_set_get Phase.readLive s.calls i _ Phase.wHeld hi
    have e2 := countP_set_get Phase.writeLive s.calls i _ Phase.wHeld hi
    have e3 := countP_set_get Phase.writePending s.calls i _ Phase.wHeld hi
    simp only [Phase.readLive, Phase.writeLive, Phase.writePending, Bool.false_eq_true,
      ↓reduceIte, Nat.add_zero] at e1 e2 e3
    constructor <;>
      simp only [Sys.liveReads, Sys.liveWrites, Sys.pendingWrites, RwLock.writeGrant,
        RwLock.incWc, RwLock.clearPrelock, Bool.false_eq_true, ↓reduceIte] <;>
      first | assumption | omega | (intro hq; cases hq)

theorem inv_spurious (s : Sys T) (i : Nat) (p : Phase) (h : Inv s)
    (hi : s.calls[i]? = some p) : Inv { s with calls := s.calls.set i p.wake } := by
  obtain ⟨h1, h2, h3, h4⟩ := h
  unfold Sys.liveReads Sys.liveWrites Sys.pendingWrites at *
  have e1 := countP_set_get Phase.readLive s.calls i _ p.wake hi
  have e2 := countP_set_get Phase.writeLive s.calls i _ p.wake hi
  have e3 := countP_set_get Phase.writePending s.calls i _ p.wake hi
  rw [readLive_wake] at e1
  rw [writeLive_wake] at e2
  rw [writePending_wake] at e3
  constructor <;>
    simp only [Sys.liveReads, Sys.liveWrites, Sys.pendingWrites] <;>
    first | omega | (intro hq; have := h4 hq; omega)

theorem inv_dropRead (s : Sys T) (i k : Nat) (cs : List Phase) (h : Inv s)
    (hi : s.calls[i]? = some Phase.rHeld)
    (hd : deliver (ReadGuard.dtor s.lock).2 k (s.calls.set i Phase.rDone) = some cs) :
    Inv { lock := (ReadGuard.dtor s.lock).1, calls := cs } := by
  obtain ⟨h1, h2, h3, h4⟩ := h
  unfold Sys.liveReads Sys.liveWrites Sys.pendingWrites at *
  have d1 := countP_deliver Phase.readLive readLive_wake _ _ _ _ hd
  have d2 := countP_deliver Phase.writeLive writeLive_wake _ _ _ _ hd
  have d3 := countP_deliver Phase.writePending writePending_wake _ _ _ _ hd
  have e1 := countP_set_get Phase.readLive s.calls i _ Phase.rDone hi
  have e2 := countP_set_get Phase.writeLive s.calls i _ Phase.rDone hi
  have e3 := countP_set_get Phase.writePending s.calls i _ Phase.rDone hi
  simp only [Phase.readLive, Phase.writeLive, Phase.writePending, Bool.false_eq_true,
    ↓reduceIte, Nat.add_zero] at e1 e2 e3
  constructor <;>
    simp only [Sys.liveReads, Sys.liveWrites, Sys.pendingWrites, ReadGuard.dtor] <;>
    first | omega | (intro hq; have := h4 hq; omega)

theorem inv_dropWrite (s : Sys T) (i k : Nat) (cs : List Phase) (h : Inv s)
    (hi : s.calls[i]? = some Phase.wHeld)
    (hd : deliver (WriteGuard.dtor s.lock).2 k (s.calls.set i Phase.wDone) = some cs) :
    Inv { lock := (WriteGuard.dtor s.lock).1, calls := cs } := by
  obtain ⟨h1, h2, h3, h4⟩ := h
  unfold Sys.liveReads Sys.liveWrites Sys.pendingWrites at *
  have d1 := countP_deliver Phase.readLive readLive_wake _ _ _ _ hd
  have d2 := countP_deliver Phase.writeLive writeLive_wake _ _ _ _ hd
  have d3 := countP_deliver Phase.writePending writePending_wake _ _ _ _ hd
  have e1 := countP_set_get Phase.readLive s.calls i _ Phase.wDone hi
  have e2 := countP_set_get Phase.writeLive s.calls i _ Phase.wDone hi
  have e3 := countP_set_get Phase.writePending s.calls i _ Phase.wDone hi
  simp only [Phase.readLive, Phase.writeLive, Phase.writePending, Bool.false_eq_true,
    ↓reduceIte, Nat.add_zero] at e1 e2 e3
  constructor <;>
    simp only [Sys.liveReads, Sys.liveWrites, Sys.pendingWrites, WriteGuard.dtor] <;>
    first | omega | (intro hq; have := h4 hq; omega)

theorem inv_store (s : Sys T) (v : T) (h : Inv s) :
    Inv { s with lock := WriteGuard.store s.lock v } := by
  obtain ⟨h1, h2, h3, h4⟩ := h
  exact ⟨h1, h2, h3, h4⟩

/-- Every enabled step keeps the invariant. -/
theorem step_inv (e : Event T) (s s1 : Sys T) (h : Inv s) (hs : step e s = some s1) :
    Inv s1 := by
  cases e with
  | read =>
    simp only [step, Option.some.injEq] at hs
    subst hs
    exact inv_read s h
  | write =>
    simp only [step, Option.some.injEq] at hs
    subst hs
    exact inv_write s h
  | resume i =>
    simp only [step] at hs
    split at hs
    · rename_i hi
      simp only [Option.some.injEq] at hs
      subst hs
      exact inv_resume_read s i h hi
    · rename_i hi
      simp only [Option.some.injEq] at hs
      subst hs
      exact inv_resume_write s i h hi
    · simp at hs
  | spurious i =>
    simp only [step] at hs
    split at hs
    · rename_i p hi
      split at hs
      · simp only [Option.some.injEq] at hs
        subst hs
        exact inv_spurious s i p h hi
      · simp at hs
    · simp at hs
  | dropRead i k =>
    simp only [step] at hs
    split at hs
    · rename_i hi
      split at hs
      · rename_i cs hd
        simp only [Option.some.injEq] at hs
        subst hs
        exact inv_dropRead s i k cs h hi hd
      · simp at hs
    · simp at hs
  | dropWrite i =>
    simp only [step] at hs
    split at hs
    · rename_i hi
      split at hs
      · rename_i cs hd
        simp only [Option.some.injEq] at hs
        subst hs
        exact inv_dropWrite s i 0 cs h hi hd
      · simp at hs
    · simp at hs
  | store i v =>
    simp only [step] at hs
    split at hs
    · simp only [Option.some.injEq] at hs
      subst hs
      exact inv_store s v h
    · simp at hs

theorem run_inv (tr : List (Event T)) : ∀ (s s1 : Sys T), Inv s → run tr s = some s1 → Inv s1 := by
  induction tr with
  | nil =>
    intro s s1 h hr
    simp only [run, Option.some.injEq] at hr
    subst hr
    exact h
  | cons e es ih =>
    intro s s1 h hr
    simp only [run] at hr
    split at hr
    · rename_i s2 hs
      exact ih s2 s1 (step_inv e s s2 h hs) hr
    · simp at hr

theorem reachable_inv (d : T) (s : Sys T) (h : Reachable d s) : Inv s := by
  obtain ⟨tr, htr⟩ := h
  exact run_inv tr _ _ (inv_init d) htr

/-- The counters of a reachable state are not negative, so on every reachable
state the tests `wc > 0` and `rc > 0` of `read()` and `write()` are the
negations of `wc == 0` and `rc == 0`. -/
theorem reachable_counters_nonneg (d : T) (s : Sys T) (h : Reachable d s) :
    0 ≤ s.lock.rc ∧ 0 ≤ s.lock.wc := by
  obtain ⟨h1, h2, _, _⟩ := reachable_inv d s h
  omega

/-! ## Effect of the scheduler steps -/

theorem step_dropRead_spec (s s1 : Sys T) (i k : Nat)
    (hs : step (Event.dropRead i k) s = some s1) :
    s.calls[i]? = some Phase.rHeld ∧ s1.lock = (ReadGuard.dtor s.lock).1 ∧
    deliver (ReadGuard.dtor s.lock).2 k (s.calls.set i Phase.rDone) = some s1.calls := by
  simp only [step] at hs
  split at hs
  · rename_i hi
    split at hs
    · rename_i cs hd
      simp only [Option.some.injEq] at hs
      subst hs
      exact ⟨hi, rfl, hd⟩
    · simp at hs
  · simp at hs

theorem step_dropWrite_spec (s s1 : Sys T) (i : Nat)
    (hs : step (Event.dropWrite i) s = some s1) :
    s.calls[i]? = some Phase.wHeld ∧ s1.lock = (WriteGuard.dtor s.lock).1 ∧
    s1.calls = notifyAll (s.calls.set i Phase.wDone) := by
  simp only [step] at hs
  split at hs
  · rename_i hi
    split at hs
    · rename_i cs hd
      simp only [Option.some.injEq] at hs
      subst hs
      simp only [WriteGuard.dtor, deliver, Option.some.injEq] at hd
      exact ⟨hi, rfl, hd.symm⟩
    · simp at hs
  · simp at hs

theorem live_dropRead (s s1 : Sys T) (i k : Nat)
    (hs : step (Event.dropRead i k) s = some s1) :
    s1.liveReads + 1 = s.liveReads ∧ s1.liveWrites = s.liveWrites := by
  obtain ⟨hi, _, hd⟩ := step_dropRead_spec s s1 i k hs
  have d1 := countP_deliver Phase.readLive readLive_wake _ _ _ _ hd
  have d2 := countP_deliver Phase.writeLive writeLive_wake _ _ _ _ hd
  have e1 := countP_set_get Phase.readLive s.calls i _ Phase.rDone hi
  have e2 := countP_set_get Phase.writeLive s.calls i _ Phase.rDone hi
  simp only [Phase.readLive, Phase.writeLive, Bool.false_eq_true,
    ↓reduceIte, Nat.add_zero] at e1 e2
  unfold Sys.liveReads Sys.liveWrites
  omega

theorem live_dropWrite (s s1 : Sys T) (i : Nat)
    (hs : step (Event.dropWrite i) s = some s1) :
    s1.liveWrites + 1 = s.liveWrites ∧ s1.liveReads = s.liveReads := by
  obtain ⟨hi, _, hd⟩ := step_dropWrite_spec s s1 i hs
  have d1 := countP_notifyAll Phase.readLive readLive_wake (s.calls.set i Phase.wDone)
  have d2 := countP_notifyAll Phase.writeLive writeLive_wake (s.calls.set i Phase.wDone)
  have e1 := countP_set_get Phase.readLive s.calls i _ Phase.wDone hi
  have e2 := countP_set_get Phase.writeLive s.calls i _ Phase.wDone hi
  simp only [Phase.readLive, Phase.writeLive, Bool.false_eq_true,
    ↓reduceIte, Nat.add_zero] at e1 e2
  unfold Sys.liveReads Sys.liveWrites
  rw [hd]
  omega

/-! ## Sequential schedules -/

theorem run_append (a : List (Event T)) : ∀ (b : List (Event T)) (s : Sys T),
    run (a ++ b) s = (run a s).bind (run b) := by
  induction a with
  | nil => intro b s; rfl
  | cons e es ih =>
    intro b s
    simp only [List.cons_append, run]
    cases step e s with
    | none => rfl
    | some s1 => exact ih b s1

/-- With no writer inside and `prelock` clear, `N` successive `read()` calls are
all granted. -/
theorem run_reads (N : Nat) : ∀ (s : Sys T), s.lock.wc ≤ 0 → s.lock.prelock = false →
    run (List.replicate N Event.read) s
      = some { lock := { s.lock with rc := s.lock.rc + N },
               calls := s.calls ++ List.replicate N Phase.rHeld } := by
  induction N with
  | zero =>
    intro s _ _
    simp [run]
  | succ n ih =>
    intro s hw hp
    have hc : s.lock.readCond = false := by
      simp only [RwLock.readCond, hp, Bool.or_false, decide_eq_false_iff_not]
      omega
    simp only [List.replicate_succ, run, step, RwLock.readPass, hc, Bool.false_eq_true,
      ↓reduceIte]
    have hn := ih { lock := s.lock.readGrant, calls := s.calls ++ [Phase.rHeld] } hw hp
    rw [hn]
    simp only [RwLock.readGrant, List.append_assoc, List.singleton_append, Nat.cast_add,
      Nat.cast_one, Option.some.injEq, Sys.mk.injEq, RwLock.mk.injEq, and_true, true_and]
    omega

theorem any_waiting_done_held (b a : Nat) :
    (List.replicate b Phase.rDone ++ List.replicate a Phase.rHeld).any Phase.waiting = false := by
  simp only [List.any_eq_false, List.mem_append, List.mem_replicate]
  intro p hp
  rcases hp with ⟨_, rfl⟩ | ⟨_, rfl⟩ <;> simp [Phase.waiting]

/-- Destroying `a` live read guards one after the other, nobody else around. -/
theorem run_drops (a : Nat) : ∀ (b : Nat) (l : RwLock T), l.rc = (a : Int) →
    run ((List.range' b a).map (fun i => Event.dropRead i 0))
        { lock := l, calls := List.replicate b Phase.rDone ++ List.replicate a Phase.rHeld }
      = some { lock := { l with rc := 0 }, calls := List.replicate (b + a) Phase.rDone } := by
  induction a with
  | zero =>
    intro b l hl
    simp only [List.range', List.map_nil, run, List.replicate_zero, List.append_nil,
      Nat.add_zero, Option.some.injEq, Sys.mk.injEq, and_true]
    cases l
    simp only [RwLock.mk.injEq, true_and, and_true] at *
    simpa using hl
  | succ n ih =>
    intro b l hl
    have hget : (List.replicate b Phase.rDone ++ List.replicate (n + 1) Phase.rHeld)[b]?
        = some Phase.rHeld := by
      rw [List.getElem?_append_right (by simp)]
      simp [List.replicate_succ]
    have hset : (List.replicate b Phase.rDone ++ List.replicate (n + 1) Phase.rHeld).set b
        Phase.rDone = List.replicate (b + 1) Phase.rDone ++ List.replicate n Phase.rHeld := by
      rw [List.set_append_right _ _ (by simp), List.replicate_succ' b]
      simp [List.replicate_succ]
    have hdel : ∀ nt : Notify, nt ≠ Notify.all →
        deliver nt 0 (List.replicate (b + 1) Phase.rDone ++ List.replicate n Phase.rHeld)
          = some (List.replicate (b + 1) Phase.rDone ++ List.replicate n Phase.rHeld) := by
      intro nt hnt
      cases nt with
      | silent => rfl
      | one => simp only [deliver, notifyOne, any_waiting_done_held, Bool.false_eq_true,
          ↓reduceIte]
      | all => exact absurd rfl hnt
    have hnt : (ReadGuard.dtor l).2 ≠ Notify.all := by
      simp only [ReadGuard.dtor]
      split <;> simp
    simp only [List.range', List.map_cons, run, step, hget, hset, hdel _ hnt]
    rw [ih (b + 1) (ReadGuard.dtor l).1 (by simp only [ReadGuard.dtor]; omega)]
    simp only [ReadGuard.dtor, Option.some.injEq, Sys.mk.injEq, true_and]
    congr 1
    omega

/-! ## Notifications never block a destructor -/

theorem exists_waiting_index : ∀ (cs : List Phase), cs.any Phase.waiting = true →
    ∃ (k : Nat) (p : Phase), cs[k]? = some p ∧ p.waiting = true := by
  intro cs
  induction cs with
  | nil => intro h; simp at h
  | cons c cs ih =>
    intro h
    simp only [List.any_cons, Bool.or_eq_true] at h
    rcases h with h | h
    · exact ⟨0, c, by simp, h⟩
    · obtain ⟨k, p, hk, hp⟩ := ih h
      exact ⟨k + 1, p, by simpa using hk, hp⟩

theorem notifyOne_enabled (cs : List Phase) : ∃ k cs1, notifyOne k cs = some cs1 := by
  by_cases h : cs.any Phase.waiting = true
  · obtain ⟨k, p, hk, hp⟩ := exists_waiting_index cs h
    exact ⟨k, cs.set k p.wake, by simp only [notifyOne, h, hk, hp, ↓reduceIte]⟩
  · exact ⟨0, cs, by simp only [notifyOne, h, Bool.false_eq_true, ↓reduceIte]⟩

theorem deliver_enabled (n : Notify) (cs : List Phase) : ∃ k cs1, deliver n k cs = some cs1 := by
  cases n with
  | silent => exact ⟨0, cs, rfl⟩
  | one => exact notifyOne_enabled cs
  | all => exact ⟨0, notifyAll cs, rfl⟩

theorem dropRead_enabled (s : Sys T) (i : Nat) (hi : s.calls[i]? = some Phase.rHeld) :
    ∃ k s1, step (Event.dropRead i k) s = some s1 := by
  obtain ⟨k, cs1, hk⟩ := deliver_enabled (ReadGuard.dtor s.lock).2 (s.calls.set i Phase.rDone)
  exact ⟨k, { lock := (ReadGuard.dtor s.lock).1, calls := cs1 }, by simp only [step, hi, hk]⟩

theorem countP_pos_get (f : Phase → Bool) (cs : List Phase) (h : 0 < cs.countP f) :
    ∃ (i : Nat) (p : Phase), cs[i]? = some p ∧ f p = true := by
  rw [List.countP_pos_iff] at h
  obtain ⟨p, hp, hf⟩ := h
  obtain ⟨i, hi, hget⟩ := List.getElem_of_mem hp
  exact ⟨i, p, by rw [List.getElem?_eq_getElem hi, hget], hf⟩

/-! ## Mutual exclusion -/

/-- Claim C1 (mutual exclusion): in every state reachable from a freshly
constructed lock, `wc` is 0 or 1, `wc == 1` implies `rc == 0`, `rc > 0` implies
`wc == 0`; at most one write guard is live, and while one is live no read guard
is live. -/
theorem mutual_exclusion (d : T) (s : Sys T) (h : Reachable d s) :
    (s.lock.wc = 0 ∨ s.lock.wc = 1) ∧
    (s.lock.wc = 1 → s.lock.rc = 0) ∧
    (s.lock.rc > 0 → s.lock.wc = 0) ∧
    s.liveWrites ≤ 1 ∧
    (0 < s.liveWrites → s.liveReads = 0) := by
  obtain ⟨h1, h2, h3, _⟩ := reachable_inv d s h
  refine ⟨?_, ?_, ?_, ?_, ?_⟩ <;> omega

/-- Instance of `mutual_exclusion` at two live read guards and a blocked writer. -/
theorem mutual_exclusion_witness :
    Reachable (0 : Int) stTwoReaders ∧
    (stTwoReaders.lock.wc = 0 ∨ stTwoReaders.lock.wc = 1) ∧
    (stTwoReaders.lock.wc = 1 → stTwoReaders.lock.rc = 0) ∧
    (stTwoReaders.lock.rc > 0 → stTwoReaders.lock.wc = 0) ∧
    stTwoReaders.liveWrites ≤ 1 ∧
    (0 < stTwoReaders.liveWrites → stTwoReaders.liveReads = 0) :=
  ⟨⟨trTwoReaders, by decide⟩, mutual_exclusion 0 stTwoReaders ⟨trTwoReaders, by decide⟩⟩

/-! ## Contracts of the four critical sections -/

/-- Claim C7 as stated fails: client code that copies a write guard and
destroys both reaches `wc == -1`; there `read()` is granted (line 111 tests
`wc > 0`) although `wc` is not 0. -/
theorem read_granted_negative_wc :
    pubRun trCopyWriteBoth (Sys.init 0) = some stNegativeWc ∧
    stNegativeWc.lock.wc = -1 ∧
    stNegativeWc.lock.readPass = ({ data := 0, rc := 1, wc := -1, prelock := false }, true) ∧
    ¬ (stNegativeWc.lock.readPass.2 = true ↔
        (stNegativeWc.lock.wc = 0 ∧ stNegativeWc.lock.prelock = false)) := by
  refine ⟨by decide, by decide, by decide, ?_⟩
  intro h
  exact absurd (h.mp (by decide)).1 (by decide)

/-- Claim C7, amended (contract of `read()`): on every lock state a pass of
`read()` grants exactly when `wc <= 0` and `prelock` is false, which on a state
with `wc >= 0` is `wc == 0` and `prelock` false; the grant adds 1 to `rc` and
changes nothing else; a pass that does not grant leaves the lock as it is and
the call waits again; a new call and a woken call always have a next state
(there is no failure result). -/
theorem read_contract (l : RwLock T) :
    (l.readPass.2 = true ↔ (l.wc ≤ 0 ∧ l.prelock = false)) ∧
    (0 ≤ l.wc → (l.readPass.2 = true ↔ (l.wc = 0 ∧ l.prelock = false))) ∧
    (l.readPass.2 = true → l.readPass.1 = { l with rc := l.rc + 1 }) ∧
    (l.readPass.2 = false → l.readPass.1 = l) ∧
    (∀ cs : List Phase, step Event.read { lock := l, calls := cs }
      = some { lock := l.readPass.1,
               calls := cs ++ [if l.readPass.2 then Phase.rHeld else Phase.rWait] }) ∧
    (∀ (cs : List Phase) (i : Nat), cs[i]? = some Phase.rWoken →
      step (Event.resume i) { lock := l, calls := cs }
        = some { lock := l.readPass.1,
                 calls := cs.set i (if l.readPass.2 then Phase.rHeld else Phase.rWait) }) := by
  have hiff : l.readPass.2 = true ↔ (l.wc ≤ 0 ∧ l.prelock = false) := by
    unfold RwLock.readPass RwLock.readCond
    cases hp : l.prelock <;> by_cases hw : l.wc > 0 <;> simp [hw]
    omega
  refine ⟨hiff, ?_, ?_, ?_, ?_, ?_⟩
  · intro hwc
    rw [hiff]
    constructor
    · intro h
      exact ⟨by omega, h.2⟩
    · intro h
      exact ⟨by omega, h.2⟩
  · unfold RwLock.readPass
    split <;> simp [RwLock.readGrant]
  · unfold RwLock.readPass
    split <;> simp
  · intro cs
    rfl
  · intro cs i hi
    simp only [step, hi]

/-- Instance of `read_contract` on an idle lock. -/
theorem read_contract_witness :
    (0 : Int) ≤ (RwLock.ctor (7 : Int)).wc ∧
    ((RwLock.ctor (7 : Int)).readPass.2 = true ↔
      ((RwLock.ctor (7 : Int)).wc = 0 ∧ (RwLock.ctor (7 : Int)).prelock = false)) ∧
    (RwLock.ctor (7 : Int)).readPass = ({ data := 7, rc := 1, wc := 0, prelock := false }, true) :=
  ⟨by decide, (read_contract (RwLock.ctor (7 : Int))).2.1 (by decide), by
    have h := (read_contract (RwLock.ctor (7 : Int))).2.2.1 (by decide)
    exact Prod.ext h (by decide)⟩

/-- Claim C8 as stated fails: client code that copies a read guard and destroys
both reaches `rc == -1`; there `write()` is granted (line 125 tests `rc > 0`)
although `rc` is not 0, and right after the grant `rc` is still -1. -/
theorem write_granted_negative_rc :
    pubRun trCopyRead (Sys.init 0) = some stNegativeRc ∧
    stNegativeRc.lock.rc = -1 ∧
    stNegativeRc.lock.writeEntry = ({ data := 0, rc := -1, wc := 1, prelock := false }, true) ∧
    ¬ (stNegativeRc.lock.writeEntry.2 = true →
        (stNegativeRc.lock.rc = 0 ∧ stNegativeRc.lock.wc = 0)) ∧
    ¬ (stNegativeRc.lock.writeEntry.2 = true → stNegativeRc.lock.writeEntry.1.rc = 0) := by
  refine ⟨by decide, by decide, by decide, ?_, ?_⟩
  · intro h
    exact absurd (h (by decide)).1 (by decide)
  · intro h
    exact absurd (h (by decide)) (by decide)

/-- Claim C8, amended (protocol of `write()`): on every lock state `write()`
first raises `prelock` (touching nothing else), then tests the counters; it is
granted exactly when `rc <= 0` and `wc <= 0`; the grant adds 1 to `wc` and then
clears `prelock`, leaving `rc` and the value alone; a pass that does not grant
leaves the flag raised; the same holds for the test after a wake-up. When
`rc >= 0` and `wc >= 0` at entry the grant happens exactly at `rc == 0` and
`wc == 0`, and right after it `wc == 1`, `rc == 0`, `prelock == false`. -/
theorem write_protocol (l : RwLock T) :
    l.setPrelock = { l with prelock := true } ∧
    l.writeEntry = l.setPrelock.writePass ∧
    (l.writeEntry.2 = true ↔ (l.rc ≤ 0 ∧ l.wc ≤ 0)) ∧
    (l.writeEntry.2 = true →
      l.writeEntry.1 = (l.setPrelock.incWc).clearPrelock ∧
      l.writeEntry.1 = { l with wc := l.wc + 1, prelock := false }) ∧
    (l.writeEntry.2 = false → l.writeEntry.1 = { l with prelock := true }) ∧
    (l.writePass.2 = true ↔ (l.rc ≤ 0 ∧ l.wc ≤ 0)) ∧
    (l.writePass.2 = true → l.writePass.1 = { l with wc := l.wc + 1, prelock := false }) ∧
    (l.writePass.2 = false → l.writePass.1 = l) ∧
    (0 ≤ l.rc → 0 ≤ l.wc →
      (l.writeEntry.2 = true ↔ (l.rc = 0 ∧ l.wc = 0)) ∧
      (l.writePass.2 = true ↔ (l.rc = 0 ∧ l.wc = 0)) ∧
      (l.writeEntry.2 = true →
        l.writeEntry.1.wc = 1 ∧ l.writeEntry.1.rc = 0 ∧ l.writeEntry.1.prelock = false) ∧
      (l.writePass.2 = true →
        l.writePass.1.wc = 1 ∧ l.writePass.1.rc = 0 ∧ l.writePass.1.prelock = false)) := by
  have key : ∀ m : RwLock T,
      (m.writePass.2 = true ↔ (m.rc ≤ 0 ∧ m.wc ≤ 0)) ∧
      (m.writePass.2 = true → m.writePass.1 = { m with wc := m.wc + 1, prelock := false }) ∧
      (m.writePass.2 = false → m.writePass.1 = m) := by
    intro m
    unfold RwLock.writePass RwLock.writeCond
    by_cases hr : m.rc > 0 <;> by_cases hw : m.wc > 0 <;>
      simp [hr, hw, RwLock.writeGrant, RwLock.incWc, RwLock.clearPrelock]
    omega
  obtain ⟨k1, k2, k3⟩ := key l.setPrelock
  obtain ⟨k4, k5, k6⟩ := key l
  have hentry : l.writeEntry.2 = true →
      l.writeEntry.1 = (l.setPrelock.incWc).clearPrelock ∧
      l.writeEntry.1 = { l with wc := l.wc + 1, prelock := false } := by
    intro hg
    refine ⟨?_, k2 hg⟩
    unfold RwLock.writeEntry RwLock.writePass at hg ⊢
    split at hg
    · simp at hg
    · rename_i hc
      simp only [hc, Bool.false_eq_true, ↓reduceIte, RwLock.writeGrant]
  refine ⟨rfl, rfl, k1, hentry, k3, k4, k5, k6, ?_⟩
  intro hrc hwc
  have e1 : l.writeEntry.2 = true ↔ (l.rc = 0 ∧ l.wc = 0) := by
    constructor
    · intro h
      have := k1.mp h
      simp only [RwLock.setPrelock] at this
      omega
    · intro h
      apply k1.mpr
      simp only [RwLock.setPrelock]
      omega
  have e2 : l.writePass.2 = true ↔ (l.rc = 0 ∧ l.wc = 0) := by
    constructor
    · intro h
      have := k4.mp h
      omega
    · intro h
      apply k4.mpr
      omega
  refine ⟨e1, e2, ?_, ?_⟩
  · intro hg
    have hz := e1.mp hg
    rw [(hentry hg).2]
    simp only [true_and, and_true]
    omega
  · intro hg
    have hz := e2.mp hg
    rw [k5 hg]
    simp only [true_and, and_true]
    omega

/-- Instance of `write_protocol` on an idle lock. -/
theorem write_protocol_witness :
    (0 : Int) ≤ (RwLock.ctor (7 : Int)).rc ∧ (0 : Int) ≤ (RwLock.ctor (7 : Int)).wc ∧
    (RwLock.ctor (7 : Int)).writeEntry.2 = true ∧
    ((RwLock.ctor (7 : Int)).writeEntry.1.wc = 1 ∧ (RwLock.ctor (7 : Int)).writeEntry.1.rc = 0 ∧
      (RwLock.ctor (7 : Int)).writeEntry.1.prelock = false) ∧
    (RwLock.ctor (7 : Int)).writeEntry.1 = { data := 7, rc := 0, wc := 1, prelock := false } :=
  ⟨by decide, by decide, by decide,
    ((write_protocol (RwLock.ctor (7 : Int))).2.2.2.2.2.2.2.2 (by decide) (by decide)).2.2.1
      (by decide),
    ((write_protocol (RwLock.ctor (7 : Int))).2.2.2.1 (by decide)).2⟩

/-- Claim C9 (release of a read guard): in every reachable state with a live
read guard, the destructor takes exactly 1 from `rc`, issues `notify_one` if
and only if the new `rc` is 0 (and nothing otherwise), and leaves `wc`,
`prelock` and the value unchanged; every live read guard can be destroyed, and
the step installs exactly this lock state. -/
theorem read_guard_release (d : T) (s : Sys T) (h : Reachable d s) (hl : 0 < s.liveReads) :
    (ReadGuard.dtor s.lock).1.rc = s.lock.rc - 1 ∧
    ((ReadGuard.dtor s.lock).2 = Notify.one ↔ (ReadGuard.dtor s.lock).1.rc = 0) ∧
    ((ReadGuard.dtor s.lock).2 = Notify.silent ↔ (ReadGuard.dtor s.lock).1.rc ≠ 0) ∧
    (ReadGuard.dtor s.lock).1.wc = s.lock.wc ∧
    (ReadGuard.dtor s.lock).1.prelock = s.lock.prelock ∧
    (ReadGuard.dtor s.lock).1.data = s.lock.data ∧
    (∀ i : Nat, s.calls[i]? = some Phase.rHeld →
      ∃ (k : Nat) (s1 : Sys T), step (Event.dropRead i k) s = some s1) ∧
    (∀ (i k : Nat) (s1 : Sys T), step (Event.dropRead i k) s = some s1 →
      s1.lock = (ReadGuard.dtor s.lock).1) := by
  obtain ⟨h1, _, _, _⟩ := reachable_inv d s h
  have hrc : 1 ≤ s.lock.rc := by omega
  refine ⟨rfl, ?_, ?_, rfl, rfl, rfl, ?_, ?_⟩
  · simp only [ReadGuard.dtor]
    by_cases hlt : s.lock.rc - 1 < 1
    · simp only [hlt, ↓reduceIte, true_iff]
      omega
    · simp only [hlt, ↓reduceIte, false_iff]
      simp only [reduceCtorEq, false_iff]
      omega
  · simp only [ReadGuard.dtor]
    by_cases hlt : s.lock.rc - 1 < 1
    · simp only [hlt, ↓reduceIte, reduceCtorEq, false_iff]
      omega
    · simp only [hlt, ↓reduceIte, true_iff]
      omega
  · intro i hi
    exact dropRead_enabled s i hi
  · intro i k s1 hs
    exact (step_dropRead_spec s s1 i k hs).2.1

/-- Instance of `read_guard_release` with two live read guards and a blocked
writer. -/
theorem read_guard_release_witness :
    Reachable (0 : Int) stTwoReaders ∧ 0 < stTwoReaders.liveReads ∧
    (ReadGuard.dtor stTwoReaders.lock).1.rc = stTwoReaders.lock.rc - 1 ∧
    ((ReadGuard.dtor stTwoReaders.lock).2 = Notify.one ↔
      (ReadGuard.dtor stTwoReaders.lock).1.rc = 0) :=
  ⟨⟨trTwoReaders, by decide⟩, by decide,
    (read_guard_release 0 stTwoReaders ⟨trTwoReaders, by decide⟩ (by decide)).1,
    (read_guard_release 0 stTwoReaders ⟨trTwoReaders, by decide⟩ (by decide)).2.1⟩

/-- Claim C10 (release of a write guard): in every reachable state with a live
write guard, the destructor brings `wc` to exactly 0, always issues
`notify_all`, and leaves `rc`, `prelock` and the value unchanged; the step is
enabled for every live write guard and wakes every sleeping call. -/
theorem write_guard_release (d : T) (s : Sys T) (h : Reachable d s) (hl : 0 < s.liveWrites) :
    (WriteGuard.dtor s.lock).1.wc = 0 ∧
    (WriteGuard.dtor s.lock).1.wc = s.lock.wc - 1 ∧
    (WriteGuard.dtor s.lock).2 = Notify.all ∧
    (WriteGuard.dtor s.lock).1.rc = s.lock.rc ∧
    (WriteGuard.dtor s.lock).1.prelock = s.lock.prelock ∧
    (WriteGuard.dtor s.lock).1.data = s.lock.data ∧
    (∀ i : Nat, s.calls[i]? = some Phase.wHeld →
      step (Event.dropWrite i) s
        = some { lock := (WriteGuard.dtor s.lock).1,
                 calls := notifyAll (s.calls.set i Phase.wDone) }) := by
  obtain ⟨_, h2, h3, _⟩ := reachable_inv d s h
  refine ⟨?_, rfl, rfl, rfl, rfl, rfl, ?_⟩
  · simp only [WriteGuard.dtor]
    omega
  · intro i hi
    simp only [step, hi, WriteGuard.dtor, deliver]

/-- Instance of `write_guard_release` with a writer inside and a sleeping reader. -/
theorem write_guard_release_witness :
    Reachable (0 : Int) stWriterInside ∧ 0 < stWriterInside.liveWrites ∧
    (WriteGuard.dtor stWriterInside.lock).1.wc = 0 ∧
    step (Event.dropWrite 0) stWriterInside
      = some { lock := { data := 0, rc := 0, wc := 0, prelock := false },
               calls := [Phase.wDone, Phase.rWoken] } :=
  ⟨⟨trWriterInside, by decide⟩, by decide,
    (write_guard_release 0 stWriterInside ⟨trWriterInside, by decide⟩ (by decide)).1,
    (write_guard_release 0 stWriterInside ⟨trWriterInside, by decide⟩ (by decide)).2.2.2.2.2.2 0
      (by decide)⟩

/-! ## Counting guards -/

theorem run_readsThenDrops (d : T) (N : Nat) :
    run (trReadsThenDrops T N) (Sys.init d)
      = some { lock := RwLock.ctor d, calls := List.replicate N Phase.rDone } := by
  unfold trReadsThenDrops
  rw [run_append, run_reads N (Sys.init d) (by simp [Sys.init, RwLock.ctor]) rfl]
  simp only [Option.some_bind, Sys.init, RwLock.ctor, List.nil_append]
  have hd := run_drops N 0 ({ data := d, rc := 0 + (N : Int), wc := 0, prelock := false })
    (by simp)
  simp only [List.replicate_zero, List.nil_append, Nat.zero_add] at hd
  exact hd

/-- Claim C4 (no double release): in every reachable state `rc` is the number
of live read guards and `wc` the number of live write guards; destroying a read
guard takes exactly 1 from `rc` and 0 from `wc`, destroying a write guard takes
exactly 1 from `wc` and 0 from `rc`; hence whenever every guard obtained so far
has been destroyed, in whatever order and interleaving, `rc == 0` and
`wc == 0`; for every `N` the schedule of `N` grants followed by the `N`
destructions runs to such a state. -/
theorem no_double_release (d : T) (s : Sys T) (h : Reachable d s) :
    s.lock.rc = (s.liveReads : Int) ∧ s.lock.wc = (s.liveWrites : Int) ∧
    (∀ (i k : Nat) (s1 : Sys T), step (Event.dropRead i k) s = some s1 →
      s1.lock.rc = s.lock.rc - 1 ∧ s1.lock.wc = s.lock.wc ∧
      s1.liveReads + 1 = s.liveReads ∧ s1.liveWrites = s.liveWrites) ∧
    (∀ (i : Nat) (s1 : Sys T), step (Event.dropWrite i) s = some s1 →
      s1.lock.wc = s.lock.wc - 1 ∧ s1.lock.rc = s.lock.rc ∧
      s1.liveWrites + 1 = s.liveWrites ∧ s1.liveReads = s.liveReads) ∧
    (s.liveReads = 0 → s.liveWrites = 0 → s.lock.rc = 0 ∧ s.lock.wc = 0) ∧
    (∀ N : Nat, ∃ s1 : Sys T, run (trReadsThenDrops T N) (Sys.init d) = some s1 ∧
      s1.calls = List.replicate N Phase.rDone ∧ s1.lock.rc = 0 ∧ s1.lock.wc = 0) := by
  obtain ⟨h1, h2, _, _⟩ := reachable_inv d s h
  refine ⟨h1, h2, ?_, ?_, ?_, ?_⟩
  · intro i k s1 hs
    obtain ⟨_, hlock, _⟩ := step_dropRead_spec s s1 i k hs
    obtain ⟨a, b⟩ := live_dropRead s s1 i k hs
    rw [hlock]
    exact ⟨rfl, rfl, a, b⟩
  · intro i s1 hs
    obtain ⟨_, hlock, _⟩ := step_dropWrite_spec s s1 i hs
    obtain ⟨a, b⟩ := live_dropWrite s s1 i hs
    rw [hlock]
    exact ⟨rfl, rfl, a, b⟩
  · intro a b
    omega
  · intro N
    exact ⟨_, run_readsThenDrops d N, rfl, rfl, rfl⟩

/-- Instance of `no_double_release` after three reads and three destructions. -/
theorem no_double_release_witness :
    Reachable (0 : Int)
      { lock := RwLock.ctor 0, calls := [Phase.rDone, Phase.rDone, Phase.rDone] } ∧
    (RwLock.ctor (0 : Int)).rc = 0 ∧ (RwLock.ctor (0 : Int)).wc = 0 :=
  ⟨⟨trReadsThenDrops Int 3, by decide⟩,
    (no_double_release (0 : Int)
      { lock := RwLock.ctor 0, calls := [Phase.rDone, Phase.rDone, Phase.rDone] }
      ⟨trReadsThenDrops Int 3, by decide⟩).2.2.2.2.1 (by decide) (by decide)⟩

/-! ## Shared reads -/

theorem notifyAll_get (cs : List Phase) (j : Nat) :
    (notifyAll cs)[j]? = (cs[j]?).map Phase.wake := by
  unfold notifyAll
  exact List.getElem?_map Phase.wake cs j

theorem wake_readPending (p : Phase) (h : p.readPending = true) : p.wake = Phase.rWoken := by
  cases p <;> first | rfl | cases h

/-- Claim C3 (shared reads): in every reachable state with no live write guard
and no pending `write()`, the wait condition of `read()` is false whatever
`rc` is; any number `N` of `read()` calls are all granted one after the other
with no release in between, and `rc` grows by `N`; every woken `read()` is
granted when it tests its condition; and when the state results from the
release of a write guard, every `read()` that was blocked has been woken. -/
theorem shared_reads (d : T) (s : Sys T) (h : Reachable d s)
    (hw : s.liveWrites = 0) (hp : s.pendingWrites = 0) :
    (∀ r : Int, ({ s.lock with rc := r } : RwLock T).readCond = false) ∧
    (∀ N : Nat, run (List.replicate N Event.read) s
        = some { lock := { s.lock with rc := s.lock.rc + N },
                 calls := s.calls ++ List.replicate N Phase.rHeld }) ∧
    (∀ j : Nat, s.calls[j]? = some Phase.rWoken →
        step (Event.resume j) s
          = some { lock := { s.lock with rc := s.lock.rc + 1 },
                   calls := s.calls.set j Phase.rHeld }) ∧
    (∀ (i : Nat) (s0 : Sys T), step (Event.dropWrite i) s0 = some s →
        ∀ (j : Nat) (p : Phase), s0.calls[j]? = some p → p.readPending = true →
          s.calls[j]? = some Phase.rWoken) := by
  obtain ⟨_, h2, _, h4⟩ := reachable_inv d s h
  have hwc : s.lock.wc = 0 := by omega
  have hpl : s.lock.prelock = false := by
    cases hq : s.lock.prelock
    · rfl
    · have := h4 hq
      omega
  have hc : ∀ r : Int, ({ s.lock with rc := r } : RwLock T).readCond = false := by
    intro r
    simp [RwLock.readCond, hwc, hpl]
  refine ⟨hc, ?_, ?_, ?_⟩
  · intro N
    exact run_reads N s (by omega) hpl
  · intro j hj
    have hc0 : s.lock.readCond = false := hc s.lock.rc
    simp only [step, hj, RwLock.readPass, hc0, Bool.false_eq_true, ↓reduceIte,
      RwLock.readGrant]
  · intro i s0 hs j p hj hpend
    obtain ⟨hi, _, hcalls⟩ := step_dropWrite_spec s0 s i hs
    have hne : i ≠ j := by
      intro e
      subst e
      rw [hi] at hj
      simp only [Option.some.injEq] at hj
      subst hj
      cases hpend
    rw [hcalls, notifyAll_get, List.getElem?_set_ne hne, hj]
    simp only [Option.map_some', wake_readPending p hpend]

/-- Instance of `shared_reads` right after a writer released the lock with a
reader blocked behind it. -/
theorem shared_reads_witness :
    Reachable (0 : Int) stWriterLeft ∧ stWriterLeft.liveWrites = 0 ∧
    stWriterLeft.pendingWrites = 0 ∧
    run (List.replicate 3 Event.read) stWriterLeft
      = some { lock := { data := 0, rc := 3, wc := 0, prelock := false },
               calls := [Phase.wDone, Phase.rWoken, Phase.rHeld, Phase.rHeld, Phase.rHeld] } ∧
    step (Event.resume 1) stWriterLeft
      = some { lock := { data := 0, rc := 1, wc := 0, prelock := false },
               calls := [Phase.wDone, Phase.rHeld] } :=
  ⟨⟨trWriterLeft, by decide⟩, by decide, by decide,
    (shared_reads 0 stWriterLeft ⟨trWriterLeft, by decide⟩ (by decide) (by decide)).2.1 3,
    (shared_reads 0 stWriterLeft ⟨trWriterLeft, by decide⟩ (by decide) (by decide)).2.2.1 1
      (by decide)⟩

/-! ## Writer priority with two pending writers -/

/-- Claim C2 (writer priority), evaluated on the code: with two pending
writers the schedule `trOvertake` runs; the second writer (call 2) entered
before the reader (call 3) began, it is still pending when the reader holds its
guard, and the writer cannot be granted in that state; so `WriterPriority`
fails. -/
theorem writer_priority_overtaken :
    run (trOvertake.take 3) (Sys.init 0)
      = some { lock := { data := 0, rc := 1, wc := 0, prelock := true },
               calls := [Phase.rHeld, Phase.wWait, Phase.wWait] } ∧
    run (trOvertake.take 5) (Sys.init 0)
      = some { lock := { data := 0, rc := 0, wc := 1, prelock := false },
               calls := [Phase.rDone, Phase.wHeld, Phase.wWait] } ∧
    run trOvertake (Sys.init 0) = some stOvertake ∧
    stOvertake.calls[2]? = some Phase.wWoken ∧
    stOvertake.calls[3]? = some Phase.rHeld ∧
    (step (Event.resume 2) stOvertake).map Sys.calls
      = some [Phase.rDone, Phase.wDone, Phase.wWait, Phase.rHeld] ∧
    ¬ WriterPriority (0 : Int) := by
  refine ⟨by decide, by decide, by decide, by decide, by decide, by decide, ?_⟩
  intro hprio
  have hbad := hprio stOvertake ⟨trOvertake, by decide⟩ 2 3 Phase.wWoken Phase.rHeld
    (by decide) (by decide) (by decide) (by decide)
  exact absurd hbad (by decide)

/-! ## The notification of the last reader -/

theorem resume_stAllAsleep (i : Nat) : step (Event.resume i) stAllAsleep = none := by
  match i with
  | 0 => rfl
  | 1 => rfl
  | 2 => rfl
  | _ + 3 => rfl

theorem resume_stReaderWoken (i : Nat) (s2 : Sys Int)
    (h : step (Event.resume i) stReaderWoken = some s2) : s2 = stAllAsleep := by
  match i, h with
  | 0, h => cases h
  | 1, h => cases h
  | 2, h =>
    have e : step (Event.resume 2) stReaderWoken = some stAllAsleep := by decide
    rw [e] at h
    exact (Option.some.inj h).symm
  | _ + 3, h => cases h

theorem resumes_stAllAsleep : ∀ (tr : List (Event Int)) (s2 : Sys Int),
    tr.all Event.isResume = true → run tr stAllAsleep = some s2 → s2 = stAllAsleep := by
  intro tr s2 hall hrun
  cases tr with
  | nil => exact (Option.some.inj hrun).symm
  | cons e es =>
    cases e with
    | resume i => simp only [run, resume_stAllAsleep] at hrun; cases hrun
    | read => simp [Event.isResume] at hall
    | write => simp [Event.isResume] at hall
    | spurious i => simp [Event.isResume] at hall
    | dropRead i k => simp [Event.isResume] at hall
    | dropWrite i => simp [Event.isResume] at hall
    | store i v => simp [Event.isResume] at hall

theorem resumes_stReaderWoken : ∀ (tr : List (Event Int)) (s2 : Sys Int),
    tr.all Event.isResume = true → run tr stReaderWoken = some s2 →
    s2 = stReaderWoken ∨ s2 = stAllAsleep := by
  intro tr s2 hall hrun
  cases tr with
  | nil => exact Or.inl (Option.some.inj hrun).symm
  | cons e es =>
    cases e with
    | resume i =>
      simp only [run] at hrun
      split at hrun
      · rename_i s3 hs
        have e3 := resume_stReaderWoken i s3 hs
        subst e3
        simp only [List.all_cons, Bool.and_eq_true] at hall
        exact Or.inr (resumes_stAllAsleep es s2 hall.2 hrun)
      · cases hrun
    | read => simp [Event.isResume] at hall
    | write => simp [Event.isResume] at hall
    | spurious i => simp [Event.isResume] at hall
    | dropRead i k => simp [Event.isResume] at hall
    | dropWrite i => simp [Event.isResume] at hall
    | store i v => simp [Event.isResume] at hall

/-- Claim C6 (reader release wakes the writer), evaluated on the code: with a
writer and a reader both asleep on the condition variable, the last read guard
is destroyed and `notify_one` picks the reader; the reader finds `prelock`
raised and sleeps again; the writer, whose condition `rc > 0 || wc > 0` is now
false, stays asleep, nobody is awake and no guard is live, so no write is
granted without a further wake-up; had the notification picked the writer, it
would have been granted. -/
theorem reader_release_lost_wakeup :
    run trMixedWaiters (Sys.init 0) = some stMixedWaiters ∧
    step (Event.dropRead 0 2) stMixedWaiters = some stReaderWoken ∧
    (ReadGuard.dtor stMixedWaiters.lock).2 = Notify.one ∧
    step (Event.resume 2) stReaderWoken = some stAllAsleep ∧
    stAllAsleep.lock.writeCond = false ∧
    stAllAsleep.liveReads = 0 ∧ stAllAsleep.liveWrites = 0 ∧
    (∀ i : Nat, step (Event.resume i) stAllAsleep = none) ∧
    run [Event.dropRead 0 1, Event.resume 1] stMixedWaiters
      = some { lock := { data := 0, rc := 0, wc := 1, prelock := false },
               calls := [Phase.rDone, Phase.wHeld, Phase.rWait] } ∧
    ¬ ReaderReleaseWakesWriter (0 : Int) := by
  refine ⟨by decide, by decide, by decide, by decide, by decide, by decide, by decide,
    resume_stAllAsleep, by decide, ?_⟩
  intro hwake
  obtain ⟨tr, s2, hall, hrun, hlive⟩ :=
    hwake stMixedWaiters stReaderWoken 0 2 ⟨trMixedWaiters, by decide⟩ (by decide) (by decide)
      ⟨1, by decide⟩
  rcases resumes_stReaderWoken tr s2 hall hrun with e | e <;> subst e <;>
    exact absurd hlive (by decide)

/-! ## Value integrity under concurrent increments -/

/-! ### Invariant of the writer threads -/

theorem sum_map_set_get {α : Type} (g : α → Nat) :
    ∀ (cs : List α) (i : Nat) (p q : α), cs[i]? = some p →
      ((cs.set i q).map g).sum + g p = (cs.map g).sum + g q := by
  intro cs
  induction cs with
  | nil => intro i p q h; simp at h
  | cons c cs ih =>
    intro i p q h
    cases i with
    | zero =>
      simp at h
      subst h
      simp only [List.set_cons_zero, List.map_cons, List.sum_cons]
      omega
    | succ j =>
      simp at h
      have := ih j p q h
      simp only [List.set_cons_succ, List.map_cons, List.sum_cons]
      omega

theorem countP_two_mem {α : Type} (f : α → Bool) :
    ∀ (cs : List α) (a b : α), a ∈ cs → b ∈ cs → a ≠ b → f a = true → f b = true →
      2 ≤ cs.countP f := by
  intro cs
  induction cs with
  | nil => intro a b ha; simp at ha
  | cons c cs ih =>
    intro a b ha hb hne fa fb
    simp only [List.mem_cons] at ha hb
    simp only [List.countP_cons]
    rcases ha with ha | ha <;> rcases hb with hb | hb
    · exact absurd (ha.trans hb.symm) hne
    · subst ha
      have : 0 < cs.countP f := List.countP_pos_iff.mpr ⟨b, hb, fb⟩
      simp only [fa, ↓reduceIte]
      omega
    · subst hb
      have : 0 < cs.countP f := List.countP_pos_iff.mpr ⟨a, ha, fa⟩
      simp only [fb, ↓reduceIte]
      omega
    · have := ih a b ha hb hne fa fb
      omega

theorem holds_wake (w : Worker) : w.wake.holds = w.holds := by
  rcases w with ⟨m, pc⟩
  cases pc <;> rfl

theorem rem_wake (w : Worker) : w.wake.rem = w.rem := by
  rcases w with ⟨m, pc⟩
  cases pc <;> rfl

theorem fresh_wake (d : Int) (w : Worker) : w.wake.fresh d = w.fresh d := by
  rcases w with ⟨m, pc⟩
  cases pc <;> rfl

theorem active_wake (w : Worker) : w.wake.active = w.active := by
  rcases w with ⟨m, pc⟩
  cases pc <;> rfl

theorem countP_deliverWorkers (n : Notify) (ws : List Worker) :
    (deliverWorkers n ws).countP Worker.holds = ws.countP Worker.holds := by
  cases n with
  | silent => rfl
  | one => rfl
  | all =>
    simp only [deliverWorkers]
    induction ws with
    | nil => rfl
    | cons c cs ih => simp only [List.map_cons, List.countP_cons, ih, holds_wake]

theorem sum_deliverWorkers (n : Notify) (ws : List Worker) :
    ((deliverWorkers n ws).map Worker.rem).sum = (ws.map Worker.rem).sum := by
  cases n with
  | silent => rfl
  | one => rfl
  | all =>
    simp only [deliverWorkers]
    induction ws with
    | nil => rfl
    | cons c cs ih => simp only [List.map_cons, List.sum_cons, ih, rem_wake]

theorem mem_deliverWorkers (n : Notify) (ws : List Worker) (w : Worker)
    (h : w ∈ deliverWorkers n ws) : ∃ w0 ∈ ws, w = w0 ∨ w = w0.wake := by
  cases n with
  | silent => exact ⟨w, h, Or.inl rfl⟩
  | one => exact ⟨w, h, Or.inl rfl⟩
  | all =>
    simp only [deliverWorkers, List.mem_map] at h
    obtain ⟨w0, h0, e⟩ := h
    exact ⟨w0, h0, Or.inr e.symm⟩

theorem incInv_init (K M : Nat) (d : Int) : IncInv (d + K * M) (IncSys.init K M d) := by
  have hz : (List.replicate K ({ left := M, pc := Pc.idle } : Worker)).countP Worker.holds
      = 0 := by
    induction K with
    | zero => rfl
    | succ n ih => simp only [List.replicate_succ, List.countP_cons, ih, Worker.holds,
        Bool.false_eq_true, ↓reduceIte]
  constructor
  · rfl
  · simp only [IncSys.init, RwLock.ctor, hz, Nat.cast_zero]
  · simp only [IncSys.init, hz, Nat.zero_le]
  · intro w hw
    simp only [IncSys.init, List.mem_replicate] at hw
    rw [hw.2]
    rfl
  · intro w hw
    simp only [IncSys.init, List.mem_replicate] at hw
    rw [hw.2]
    rfl
  · simp [IncSys.init, RwLock.ctor, Worker.rem]

theorem fresh_of_not_holds (d : Int) (w : Worker) (h : w.holds = false) :
    w.fresh d = true := by
  rcases w with ⟨m, pc⟩
  cases pc <;> first | rfl | cases h

/-- Replacing the state of thread `t` keeps the invariant when the new lock
state and the new thread state fit together. -/
theorem incInv_set (total : Int) (s : IncSys) (t : Nat) (w x : Worker) (l1 : RwLock Int)
    (h : IncInv total s) (ht : s.ws[t]? = some w)
    (hrc : l1.rc = 0)
    (hwc : l1.wc + (if w.holds then 1 else 0) = s.lock.wc + (if x.holds then 1 else 0))
    (hex : l1.wc ≤ 1)
    (hdata : l1.data = s.lock.data ∨ x.holds = true)
    (hfx : x.fresh l1.data = true)
    (hax : x.active = true)
    (hsum : l1.data + (x.rem : Int) = s.lock.data + (w.rem : Int)) :
    IncInv total { lock := l1, ws := s.ws.set t x } := by
  obtain ⟨h1, h2, h3, h4, h5, h6⟩ := h
  have e1 := countP_set_get Worker.holds s.ws t w x ht
  have e2 := sum_map_set_get Worker.rem s.ws t w x ht
  have hlen : t < s.ws.length := (List.getElem?_eq_some.mp ht).1
  have hcount : ((s.ws.set t x).countP Worker.holds : Int) = l1.wc := by
    by_cases hw : w.holds = true <;> by_cases hx : x.holds = true <;>
      simp only [hw, hx, Bool.false_eq_true, ↓reduceIte] at e1 hwc <;> omega
  have hle : (s.ws.set t x).countP Worker.holds ≤ 1 := by omega
  refine ⟨hrc, hcount.symm, hle, ?_, ?_, ?_⟩
  · intro y hy
    rcases List.mem_or_eq_of_mem_set hy with hy1 | hy1
    · rcases hdata with hd | hd
      · simp only [hd]
        exact h4 y hy1
      · by_cases hyx : y = x
        · rw [hyx]
          exact hfx
        · cases hyh : y.holds
          · exact fresh_of_not_holds _ y hyh
          · have := countP_two_mem Worker.holds (s.ws.set t x) y x hy
              (List.mem_set s.ws t hlen x) hyx hyh hd
            omega
    · rw [hy1]
      exact hfx
  · intro y hy
    rcases List.mem_or_eq_of_mem_set hy with hy1 | hy1
    · exact h5 y hy1
    · rw [hy1]
      exact hax
  · show l1.data + (((s.ws.set t x).map Worker.rem).sum : Int) = total
    omega

/-- A notification keeps the invariant. -/
theorem incInv_deliver (total : Int) (l : RwLock Int) (ws : List Worker) (n : Notify)
    (h : IncInv total { lock := l, ws := ws }) :
    IncInv total { lock := l, ws := deliverWorkers n ws } := by
  obtain ⟨h1, h2, h3, h4, h5, h6⟩ := h
  have c := countP_deliverWorkers n ws
  have e := sum_deliverWorkers n ws
  refine ⟨h1, ?_, ?_, ?_, ?_, ?_⟩
  · show l.wc = ((deliverWorkers n ws).countP Worker.holds : Int)
    rw [c]
    exact h2
  · show (deliverWorkers n ws).countP Worker.holds ≤ 1
    rw [c]
    exact h3
  · intro y hy
    obtain ⟨w0, hw0, hy0 | hy0⟩ := mem_deliverWorkers n ws y hy
    · rw [hy0]
      exact h4 w0 hw0
    · rw [hy0, fresh_wake]
      exact h4 w0 hw0
  · intro y hy
    obtain ⟨w0, hw0, hy0 | hy0⟩ := mem_deliverWorkers n ws y hy
    · rw [hy0]
      exact h5 w0 hw0
    · rw [hy0, active_wake]
      exact h5 w0 hw0
  · show l.data + (((deliverWorkers n ws).map Worker.rem).sum : Int) = total
    rw [e]
    exact h6

theorem writePass_facts (l : RwLock T) :
    l.writePass.1.rc = l.rc ∧ l.writePass.1.data = l.data ∧
    l.writePass.1.wc = l.wc + (if l.writePass.2 then 1 else 0) ∧
    (l.writePass.2 = true → l.rc ≤ 0 ∧ l.wc ≤ 0) := by
  unfold RwLock.writePass
  by_cases hc : l.writeCond = true
  · simp [hc]
  · simp only [hc, Bool.false_eq_true, ↓reduceIte, RwLock.writeGrant, RwLock.incWc,
      RwLock.clearPrelock, true_and, forall_const]
    simp only [RwLock.writeCond, Bool.or_eq_true, decide_eq_true_eq, not_or] at hc
    omega

/-- A thread passing the loop of `write()` keeps the invariant. -/
theorem incInv_pass (total : Int) (s : IncSys) (t : Nat) (w : Worker) (l : RwLock Int)
    (h : IncInv total s) (ht : s.ws[t]? = some w)
    (hl : l.rc = s.lock.rc ∧ l.wc = s.lock.wc ∧ l.data = s.lock.data)
    (hw : w.holds = false) (hrem : w.rem = w.left) (hleft : 0 < w.left) :
    IncInv total { lock := l.writePass.1,
                   ws := s.ws.set t { w with pc := (if l.writePass.2 then Pc.held else Pc.wait) } } := by
  obtain ⟨f1, f2, f3, f4⟩ := writePass_facts l
  obtain ⟨l1, l2, l3⟩ := hl
  have h1 := h.rc0
  have h2 := h.wc_eq
  have h3 := h.excl
  cases hg : l.writePass.2
  · simp only [hg, Bool.false_eq_true, ↓reduceIte, Int.add_zero] at f3 ⊢
    refine incInv_set total s t w _ _ h ht ?_ ?_ ?_ ?_ ?_ ?_ ?_
    · omega
    · rw [hw]
      simp only [Worker.holds, Bool.false_eq_true, ↓reduceIte]
      omega
    · omega
    · exact Or.inl (f2.trans l3)
    · rfl
    · simp only [Worker.active, decide_eq_true hleft, Bool.or_true]
    · rw [hrem]
      simp only [Worker.rem, f2, l3]
  · simp only [hg, ↓reduceIte] at f3 ⊢
    have := f4 hg
    refine incInv_set total s t w _ _ h ht ?_ ?_ ?_ ?_ ?_ ?_ ?_
    · omega
    · rw [hw]
      simp only [Worker.holds, Bool.false_eq_true, ↓reduceIte]
      omega
    · omega
    · exact Or.inl (f2.trans l3)
    · rfl
    · simp only [Worker.active, decide_eq_true hleft, Bool.or_true]
    · rw [hrem]
      simp only [Worker.rem, f2, l3]

theorem active_left (w : Worker) (h : w.active = true) (hp : w.pc ≠ Pc.idle) : 0 < w.left := by
  simp only [Worker.active, Bool.or_eq_true, decide_eq_true_eq] at h
  rcases h with h | h
  · exact absurd h hp
  · exact h

/-- Every enabled step of the writer threads keeps the invariant. -/
theorem incStep_inv (total : Int) (e : IncEvent) (s s1 : IncSys) (h : IncInv total s)
    (hs : incStep e s = some s1) : IncInv total s1 := by
  cases e with
  | call t =>
    simp only [incStep] at hs
    split at hs
    · rename_i w ht
      split at hs
      · rename_i hc
        simp only [Option.some.injEq] at hs
        subst hs
        exact incInv_pass total s t w s.lock.setPrelock h ht ⟨rfl, rfl, rfl⟩
          (by simp only [Worker.holds, hc.1]) (by simp only [Worker.rem, hc.1]) hc.2
      · cases hs
    · cases hs
  | resume t =>
    simp only [incStep] at hs
    split at hs
    · rename_i w ht
      split at hs
      · rename_i hc
        simp only [Option.some.injEq] at hs
        subst hs
        exact incInv_pass total s t w s.lock h ht ⟨rfl, rfl, rfl⟩
          (by simp only [Worker.holds, hc]) (by simp only [Worker.rem, hc])
          (active_left w (h.act w (List.getElem?_mem ht)) (by simp [hc]))
      · cases hs
    · cases hs
  | spurious t =>
    simp only [incStep] at hs
    split at hs
    · rename_i w ht
      split at hs
      · rename_i hc
        simp only [Option.some.injEq] at hs
        subst hs
        have hl := active_left w (h.act w (List.getElem?_mem ht)) (by simp [hc])
        apply incInv_set total s t w _ _ h ht
        · exact h.rc0
        · simp only [Worker.holds, hc, Bool.false_eq_true, ↓reduceIte]
        · have := h.wc_eq
          have := h.excl
          omega
        · exact Or.inl rfl
        · rfl
        · simp only [Worker.active, decide_eq_true hl, Bool.or_true]
        · simp only [Worker.rem, hc]
      · cases hs
    · cases hs
  | load t =>
    simp only [incStep] at hs
    split at hs
    · rename_i w ht
      split at hs
      · rename_i hc
        simp only [Option.some.injEq] at hs
        subst hs
        have hl := active_left w (h.act w (List.getElem?_mem ht)) (by simp [hc])
        apply incInv_set total s t w _ _ h ht
        · exact h.rc0
        · simp only [Worker.holds, hc, ↓reduceIte]
        · have := h.wc_eq
          have := h.excl
          omega
        · exact Or.inl rfl
        · simp only [Worker.fresh, WriteGuard.data, decide_True]
        · simp only [Worker.active, decide_eq_true hl, Bool.or_true]
        · simp only [Worker.rem, hc]
      · cases hs
    · cases hs
  | store t =>
    simp only [incStep] at hs
    split at hs
    · rename_i w ht
      split at hs
      · rename_i v hc
        simp only [Option.some.injEq] at hs
        subst hs
        have hl := active_left w (h.act w (List.getElem?_mem ht)) (by simp [hc])
        have hf := h.fresh w (List.getElem?_mem ht)
        simp only [Worker.fresh, hc, decide_eq_true_eq] at hf
        apply incInv_set total s t w _ _ h ht
        · exact h.rc0
        · simp only [Worker.holds, hc, WriteGuard.store, ↓reduceIte]
        · have := h.wc_eq
          have := h.excl
          simp only [WriteGuard.store]
          omega
        · exact Or.inr rfl
        · rfl
        · simp only [Worker.active, decide_eq_true hl, Bool.or_true]
        · simp only [Worker.rem, hc, WriteGuard.store, hf]
          omega
      · cases hs
    · cases hs
  | drop t =>
    simp only [incStep] at hs
    split at hs
    · rename_i w ht
      split at hs
      · rename_i hc
        simp only [Option.some.injEq] at hs
        subst hs
        apply incInv_deliver
        have hcnt := countP_set_get Worker.holds s.ws t w w ht
        have hpos : 0 < s.ws.countP Worker.holds :=
          List.countP_pos_iff.mpr ⟨w, List.getElem?_mem ht, by simp only [Worker.holds, hc]⟩
        apply incInv_set total s t w _ _ h ht
        · exact h.rc0
        · simp only [Worker.holds, hc, WriteGuard.dtor, Bool.false_eq_true, ↓reduceIte]
          omega
        · have := h.wc_eq
          have := h.excl
          simp only [WriteGuard.dtor]
          omega
        · exact Or.inl rfl
        · rfl
        · rfl
        · simp only [Worker.rem, hc, WriteGuard.dtor]
      · cases hs
    · cases hs

theorem incRun_inv (total : Int) (tr : List IncEvent) :
    ∀ (s s1 : IncSys), IncInv total s → incRun tr s = some s1 → IncInv total s1 := by
  induction tr with
  | nil =>
    intro s s1 h hr
    simp only [incRun, Option.some.injEq] at hr
    subst hr
    exact h
  | cons e es ih =>
    intro s s1 h hr
    simp only [incRun] at hr
    split at hr
    · rename_i s2 hs
      exact ih s2 s1 (incStep_inv total e s s2 h hs) hr
    · cases hr

theorem sum_rem_complete : ∀ (ws : List Worker),
    ws.all (fun w => decide (w.left = 0) && decide (w.pc = Pc.idle)) = true →
    (ws.map Worker.rem).sum = 0 := by
  intro ws
  induction ws with
  | nil => intro _; rfl
  | cons c cs ih =>
    intro h
    simp only [List.all_cons, Bool.and_eq_true, decide_eq_true_eq] at h
    have hc : c.rem = 0 := by simp only [Worker.rem, h.1.2, h.1.1]
    have := ih (by simpa using h.2)
    simp only [List.map_cons, List.sum_cons, hc, this]

/-- Claim C5 (value integrity): `K` threads each run `M` times the block that
takes a write guard, reads the payload through it, stores the value read plus 1
and destroys the guard; whatever the interleaving, in every complete execution
the final payload is the initial payload plus `K * M`. -/
theorem value_integrity (K M : Nat) (d : Int) (tr : List IncEvent) (s : IncSys)
    (hrun : incRun tr (IncSys.init K M d) = some s) (hdone : s.complete = true) :
    s.lock.data = d + (K : Int) * (M : Int) := by
  have hinv := incRun_inv (d + (K : Int) * (M : Int)) tr _ s (incInv_init K M d) hrun
  have hz := sum_rem_complete s.ws hdone
  have hsum := hinv.sum
  rw [hz] at hsum
  simpa using hsum

/-- Instance of `value_integrity`: two threads, one increment each, from 5. -/
theorem value_integrity_witness :
    incRun trTwoIncrements (IncSys.init 2 1 5) = some stTwoIncrements ∧
    stTwoIncrements.complete = true ∧
    stTwoIncrements.lock.data = (5 : Int) + ((2 : Nat) : Int) * ((1 : Nat) : Int) :=
  ⟨by decide, by decide,
    value_integrity 2 1 5 trTwoIncrements stTwoIncrements (by decide) (by decide)⟩

/-! ### A complete execution exists for every number of threads and iterations -/

theorem incRun_append (a : List IncEvent) : ∀ (b : List IncEvent) (s : IncSys),
    incRun (a ++ b) s = (incRun a s).bind (incRun b) := by
  induction a with
  | nil => intro b s; rfl
  | cons e es ih =>
    intro b s
    simp only [List.cons_append, incRun]
    cases incStep e s with
    | none => rfl
    | some s1 => exact ih b s1

theorem get_mid {α : Type} (x : α) (post : List α) : ∀ (pre : List α),
    (pre ++ x :: post)[pre.length]? = some x := by
  intro pre
  induction pre with
  | nil => simp
  | cons c cs ih => simpa using ih

theorem set_mid {α : Type} (x y : α) (post : List α) : ∀ (pre : List α),
    (pre ++ x :: post).set pre.length y = pre ++ y :: post := by
  intro pre
  induction pre with
  | nil => rfl
  | cons c cs ih => simp

theorem map_wake_idle : ∀ (ws : List Worker), (∀ w ∈ ws, w.pc = Pc.idle) →
    ws.map Worker.wake = ws := by
  intro ws
  induction ws with
  | nil => intro _; rfl
  | cons c cs ih =>
    intro h
    have hc : c.wake = c := by
      have := h c (List.mem_cons_self c cs)
      simp only [Worker.wake, this]
    simp only [List.map_cons, hc, ih (fun w hw => h w (List.mem_cons_of_mem c hw))]

theorem writeEntry_idle (l : RwLock T) (hrc : l.rc = 0) (hwc : l.wc = 0) :
    l.writeEntry = ({ l with wc := 1, prelock := false }, true) := by
  simp [RwLock.writeEntry, RwLock.writePass, RwLock.writeCond, RwLock.setPrelock,
    RwLock.writeGrant, RwLock.incWc, RwLock.clearPrelock, hrc, hwc]

theorem incRun_block (pre post : List Worker) (m : Nat) (l : RwLock Int)
    (hrc : l.rc = 0) (hwc : l.wc = 0)
    (hpre : ∀ w ∈ pre, w.pc = Pc.idle) (hpost : ∀ w ∈ post, w.pc = Pc.idle) :
    incRun (incBlock pre.length)
        { lock := l, ws := pre ++ { left := m + 1, pc := Pc.idle } :: post }
      = some { lock := { l with data := l.data + 1, prelock := false },
               ws := pre ++ { left := m, pc := Pc.idle } :: post } := by
  have hall : ∀ w ∈ pre ++ ({ left := m, pc := Pc.idle } : Worker) :: post,
      w.pc = Pc.idle := by
    intro w hw
    simp only [List.mem_append, List.mem_cons] at hw
    rcases hw with hw | hw | hw
    · exact hpre w hw
    · rw [hw]
    · exact hpost w hw
  simp only [incBlock, incRun, incStep, get_mid, set_mid, writeEntry_idle l hrc hwc,
    Nat.zero_lt_succ, and_self, ↓reduceIte, WriteGuard.data, WriteGuard.store,
    WriteGuard.dtor, deliverWorkers, map_wake_idle _ hall, Nat.add_sub_cancel,
    Option.some.injEq, IncSys.mk.injEq, and_true]
  cases l
  simp_all

theorem incRun_repeat (pre post : List Worker)
    (hpre : ∀ w ∈ pre, w.pc = Pc.idle) (hpost : ∀ w ∈ post, w.pc = Pc.idle) (m : Nat) :
    ∀ (l : RwLock Int), l.rc = 0 → l.wc = 0 → l.prelock = false →
      incRun (incRepeat pre.length m)
          { lock := l, ws := pre ++ { left := m, pc := Pc.idle } :: post }
        = some { lock := { l with data := l.data + m },
                 ws := pre ++ { left := 0, pc := Pc.idle } :: post } := by
  induction m with
  | zero =>
    intro l _ _ _
    simp [incRepeat, incRun]
  | succ n ih =>
    intro l hrc hwc hpl
    simp only [incRepeat]
    rw [incRun_append, incRun_block pre post n l hrc hwc hpre hpost]
    simp only [Option.some_bind]
    rw [ih { l with data := l.data + 1, prelock := false } hrc hwc rfl]
    simp only [Nat.cast_add, Nat.cast_one, Option.some.injEq, IncSys.mk.injEq, and_true]
    cases l
    simp only [RwLock.mk.injEq, true_and, and_true] at *
    constructor
    · omega
    · exact hpl.symm

theorem incRun_sequentialFrom (M : Nat) (n : Nat) :
    ∀ (a : Nat) (l : RwLock Int), l.rc = 0 → l.wc = 0 → l.prelock = false →
      incRun (trSequentialFrom M a n)
          { lock := l,
            ws := List.replicate a { left := 0, pc := Pc.idle }
                    ++ List.replicate n { left := M, pc := Pc.idle } }
        = some { lock := { l with data := l.data + (n : Int) * (M : Int) },
                 ws := List.replicate (a + n) { left := 0, pc := Pc.idle } } := by
  induction n with
  | zero =>
    intro a l _ _ _
    simp [trSequentialFrom, incRun]
  | succ k ih =>
    intro a l hrc hwc hpl
    have hrep := incRun_repeat (List.replicate a { left := 0, pc := Pc.idle })
      (List.replicate k { left := M, pc := Pc.idle })
      (fun w hw => by rw [List.eq_of_mem_replicate hw])
      (fun w hw => by rw [List.eq_of_mem_replicate hw]) M l hrc hwc hpl
    rw [List.length_replicate] at hrep
    simp only [trSequentialFrom, List.replicate_succ]
    rw [incRun_append, hrep]
    simp only [Option.some_bind]
    have hshape : List.replicate a ({ left := 0, pc := Pc.idle } : Worker)
        ++ { left := 0, pc := Pc.idle } :: List.replicate k { left := M, pc := Pc.idle }
        = List.replicate (a + 1) { left := 0, pc := Pc.idle }
          ++ List.replicate k { left := M, pc := Pc.idle } := by
      rw [List.replicate_succ' a]
      simp
    rw [hshape, ih (a + 1) { l with data := l.data + M } hrc hwc hpl]
    simp only [Nat.cast_add, Nat.cast_one, Option.some.injEq, IncSys.mk.injEq,
      RwLock.mk.injEq, and_true, true_and]
    constructor
    · ring
    · congr 1
      omega

/-- For every number of threads and of iterations the sequential schedule is a
complete execution, and it ends with the payload raised by `K * M`. -/
theorem complete_execution_exists (K M : Nat) (d : Int) :
    ∃ s : IncSys, incRun (trSequential K M) (IncSys.init K M d) = some s ∧
      s.complete = true ∧ s.lock.data = d + (K : Int) * (M : Int) := by
  have h := incRun_sequentialFrom M K 0 (RwLock.ctor d) rfl rfl rfl
  simp only [List.replicate_zero, List.nil_append, Nat.zero_add] at h
  refine ⟨_, h, ?_, rfl⟩
  simp [IncSys.complete]

/-! ## Assignment through a write guard -/

/-- Claim C11 (replace and self-assignment): in every state in which call `i`
holds a live write guard, `operator=` leaves the protected value equal to the
value passed, returns that value, and changes none of `rc`, `wc`, `prelock`;
it is the plain store of the value; when the argument is the protected member
itself the whole lock state is unchanged, and the early-return branch gives the
same result as the assignment of the stored value. -/
theorem assign_replaces_value (s : Sys T) (i : Nat) (a : Arg T)
    (hi : s.calls[i]? = some Phase.wHeld) :
    (WriteGuard.assign s.lock a).1.data = a.value s.lock ∧
    (WriteGuard.assign s.lock a).2 = a.value s.lock ∧
    (WriteGuard.assign s.lock a).1.rc = s.lock.rc ∧
    (WriteGuard.assign s.lock a).1.wc = s.lock.wc ∧
    (WriteGuard.assign s.lock a).1.prelock = s.lock.prelock ∧
    (WriteGuard.assign s.lock a).1 = WriteGuard.store s.lock (a.value s.lock) ∧
    step (Event.store i (a.value s.lock)) s
      = some { s with lock := (WriteGuard.assign s.lock a).1 } ∧
    WriteGuard.assign s.lock Arg.self = (s.lock, s.lock.data) ∧
    WriteGuard.assign s.lock Arg.self = WriteGuard.assign s.lock (Arg.other s.lock.data) := by
  have hstore : (WriteGuard.assign s.lock a).1 = WriteGuard.store s.lock (a.value s.lock) := by
    cases a with
    | self => rfl
    | other v => rfl
  refine ⟨?_, ?_, ?_, ?_, ?_, hstore, ?_, rfl, rfl⟩
  · cases a <;> rfl
  · cases a <;> rfl
  · cases a <;> rfl
  · cases a <;> rfl
  · cases a <;> rfl
  · simp only [step, hi, hstore]

/-- Instance of `assign_replaces_value` with a writer inside: the value 9 is
assigned. -/
theorem assign_replaces_value_witness :
    stWriterInside.calls[0]? = some Phase.wHeld ∧
    (WriteGuard.assign stWriterInside.lock (Arg.other 9)).1
      = { data := 9, rc := 0, wc := 1, prelock := false } ∧
    (WriteGuard.assign stWriterInside.lock (Arg.other 9)).2 = 9 :=
  ⟨by decide,
    (assign_replaces_value stWriterInside 0 (Arg.other 9) (by decide)).2.2.2.2.2.1,
    (assign_replaces_value stWriterInside 0 (Arg.other 9) (by decide)).2.1⟩

/-! ## Construction -/

/-- Claim C12 as stated fails: for the scalar type `int` the constructor writes
no value into `data`; built on storage that holds 7 the new lock holds 7, the
first read guard returns 7, and 7 is not the default value 0 of `int`. -/
theorem construction_scalar_uninitialised :
    RwLock.ctorAt none rawStorage = { data := 7, rc := 0, wc := 0, prelock := false } ∧
    step Event.read { lock := RwLock.ctorAt none rawStorage, calls := [] }
      = some { lock := { data := 7, rc := 1, wc := 0, prelock := false },
               calls := [Phase.rHeld] } ∧
    ReadGuard.data ({ data := 7, rc := 1, wc := 0, prelock := false } : RwLock Int) = 7 ∧
    ¬ ConstructionHoldsDefault none (0 : Int) := by
  refine ⟨by decide, by decide, by decide, ?_⟩
  intro h
  exact absurd (h rawStorage) (by decide)

/-- Claim C12, amended: the constructor takes no argument; whatever the storage
held, the new lock has `rc == 0`, `wc == 0`, `prelock == false`; its value is
default-initialised, that is the default-constructed value of `T` for a class
type and the content of the storage for a scalar type; it is the initial state
of the scheduler, the first `read()` on it is granted at once and `data()` of
its guard returns that value. -/
theorem construction_default (dinit : Option T) (mem : RwLock T) :
    (RwLock.ctorAt dinit mem).rc = 0 ∧ (RwLock.ctorAt dinit mem).wc = 0 ∧
    (RwLock.ctorAt dinit mem).prelock = false ∧
    (∀ v : T, (RwLock.ctorAt (some v) mem).data = v) ∧
    (RwLock.ctorAt none mem).data = mem.data ∧
    RwLock.ctorAt dinit mem = RwLock.ctor (dinit.getD mem.data) ∧
    Sys.init (dinit.getD mem.data) = { lock := RwLock.ctorAt dinit mem, calls := [] } ∧
    (∃ s1 : Sys T, step Event.read { lock := RwLock.ctorAt dinit mem, calls := [] } = some s1 ∧
      s1.calls = [Phase.rHeld] ∧ s1.lock.rc = 1 ∧
      ReadGuard.data s1.lock = (RwLock.ctorAt dinit mem).data) := by
  have hctor : RwLock.ctorAt dinit mem = RwLock.ctor (dinit.getD mem.data) := by
    cases dinit <;> rfl
  refine ⟨rfl, rfl, rfl, fun _ => rfl, rfl, hctor, ?_, ?_⟩
  · rw [hctor]
    rfl
  · rw [hctor]
    refine ⟨{ lock := (RwLock.ctor (dinit.getD mem.data)).readGrant, calls := [Phase.rHeld] },
      ?_, rfl, ?_, rfl⟩
    · simp [step, RwLock.ctor, RwLock.readPass, RwLock.readCond, RwLock.readGrant]
    · simp [RwLock.ctor, RwLock.readGrant]

/-! ## The flag `prelock` -/

/-- Claim C13 (meaning of the writer-pending flag), evaluated on the code: with
two pending writers the first one granted clears `prelock` (line 131) while the
second is still pending, so the flag is false with a pending `write()`, and a
`read()` arriving then is only held back by `wc`; `FlagMeansPending` fails. -/
theorem pending_flag_cleared_early :
    run trFlagCleared (Sys.init 0) = some stFlagCleared ∧
    stFlagCleared.calls[2]? = some Phase.wWait ∧
    stFlagCleared.pendingWrites = 1 ∧
    stFlagCleared.lock.prelock = false ∧
    ¬ FlagMeansPending (0 : Int) := by
  refine ⟨by decide, by decide, by decide, by decide, ?_⟩
  intro hflag
  have hiff := hflag stFlagCleared ⟨trFlagCleared, by decide⟩
  exact absurd (hiff.mpr (by decide)) (by decide)

/-- Claim C17 (no stale pending flag): in every reachable state a raised
`prelock` has a `write()` call behind it that has entered and has not been
granted; so once no `write()` is pending the flag is down, and with no writer
pending or inside the wait condition of `read()` is false: the flag alone never
blocks a reader. -/
theorem no_stale_flag (d : T) (s : Sys T) (h : Reachable d s) :
    (s.lock.prelock = true → 0 < s.pendingWrites) ∧
    (s.lock.prelock = true →
      ∃ (j : Nat) (p : Phase), s.calls[j]? = some p ∧ p.writePending = true) ∧
    (s.pendingWrites = 0 → s.lock.prelock = false) ∧
    (s.pendingWrites = 0 → s.liveWrites = 0 → s.lock.readCond = false) := by
  obtain ⟨_, h2, _, h4⟩ := reachable_inv d s h
  have hdown : s.pendingWrites = 0 → s.lock.prelock = false := by
    intro hp
    cases hq : s.lock.prelock
    · rfl
    · have := h4 hq
      omega
  refine ⟨h4, ?_, hdown, ?_⟩
  · intro hq
    exact countP_pos_get Phase.writePending s.calls (h4 hq)
  · intro hp hw
    have hwc : s.lock.wc = 0 := by omega
    simp [RwLock.readCond, hwc, hdown hp]

/-- Instance of `no_stale_flag` with a raised flag (two readers inside, a writer
blocked). -/
theorem no_stale_flag_witness :
    Reachable (0 : Int) stTwoReaders ∧ stTwoReaders.lock.prelock = true ∧
    0 < stTwoReaders.pendingWrites :=
  ⟨⟨trTwoReaders, by decide⟩, by decide,
    (no_stale_flag 0 stTwoReaders ⟨trTwoReaders, by decide⟩).1 (by decide)⟩

/-! ## No deadlock by the counters and the flag -/

/-- Claim C18 (no predicate-level deadlock): in every reachable state with no
live guard (`rc == 0` and `wc == 0`) and some call pending, some pending call
is admissible: if a `write()` is pending the loop condition of `write()` is
false, so every pending `write()` is admissible (a woken one is granted when it
runs); otherwise the loop condition of `read()` is false, so every pending
`read()` is admissible (a woken one is granted when it runs). -/
theorem no_predicate_deadlock (d : T) (s : Sys T) (h : Reachable d s)
    (hr : s.liveReads = 0) (hw : s.liveWrites = 0)
    (hp : 0 < s.pendingReads + s.pendingWrites) :
    s.lock.rc = 0 ∧ s.lock.wc = 0 ∧
    (0 < s.pendingWrites → s.lock.writeCond = false) ∧
    (s.pendingWrites = 0 → s.lock.readCond = false) ∧
    (∃ (j : Nat) (p : Phase), s.calls[j]? = some p ∧
      ((p.writePending = true ∧ s.lock.writeCond = false) ∨
       (p.readPending = true ∧ s.lock.readCond = false))) ∧
    (∀ j : Nat, s.calls[j]? = some Phase.wWoken →
      ∃ s1 : Sys T, step (Event.resume j) s = some s1 ∧
        s1.calls = s.calls.set j Phase.wHeld) ∧
    (s.pendingWrites = 0 → ∀ j : Nat, s.calls[j]? = some Phase.rWoken →
      ∃ s1 : Sys T, step (Event.resume j) s = some s1 ∧
        s1.calls = s.calls.set j Phase.rHeld) := by
  obtain ⟨h1, h2, _, h4⟩ := reachable_inv d s h
  have hrc : s.lock.rc = 0 := by omega
  have hwc : s.lock.wc = 0 := by omega
  have hwcond : s.lock.writeCond = false := by
    simp [RwLock.writeCond, hrc, hwc]
  have hrcond : s.pendingWrites = 0 → s.lock.readCond = false := by
    intro hpw
    have hpl : s.lock.prelock = false := by
      cases hq : s.lock.prelock
      · rfl
      · have := h4 hq
        omega
    simp [RwLock.readCond, hwc, hpl]
  refine ⟨hrc, hwc, fun _ => hwcond, hrcond, ?_, ?_, ?_⟩
  · by_cases hpw : 0 < s.pendingWrites
    · obtain ⟨j, p, hj, hpj⟩ := countP_pos_get Phase.writePending s.calls hpw
      exact ⟨j, p, hj, Or.inl ⟨hpj, hwcond⟩⟩
    · have hpr : 0 < s.pendingReads := by omega
      obtain ⟨j, p, hj, hpj⟩ := countP_pos_get Phase.readPending s.calls hpr
      exact ⟨j, p, hj, Or.inr ⟨hpj, hrcond (by omega)⟩⟩
  · intro j hj
    refine ⟨{ lock := s.lock.writeGrant, calls := s.calls.set j Phase.wHeld }, ?_, rfl⟩
    simp only [step, hj, RwLock.writePass, hwcond, Bool.false_eq_true, ↓reduceIte]
  · intro hpw j hj
    refine ⟨{ lock := s.lock.readGrant, calls := s.calls.set j Phase.rHeld }, ?_, rfl⟩
    simp only [step, hj, RwLock.readPass, hrcond hpw, Bool.false_eq_true, ↓reduceIte]

/-- Instance of `no_predicate_deadlock` with a reader and a writer pending and
no guard live: the writer is admissible. -/
theorem no_predicate_deadlock_witness :
    Reachable (0 : Int) stBothPending ∧ stBothPending.liveReads = 0 ∧
    stBothPending.liveWrites = 0 ∧ 0 < stBothPending.pendingReads + stBothPending.pendingWrites ∧
    stBothPending.lock.writeCond = false :=
  ⟨⟨trBothPending, by decide⟩, by decide, by decide, by decide,
    (no_predicate_deadlock 0 stBothPending ⟨trBothPending, by decide⟩ (by decide) (by decide)
      (by decide)).2.2.1 (by decide)⟩

/-! ## Guards made by copy -/

/-- Claim C14 (guards come only from acquisition), evaluated on the code: the
implicit copy constructor makes a second guard with no increment; destroying a
read guard and its copy leaves `rc == -1`; destroying the copy of a write guard
brings `wc` to 0 while the write guard is live, and a reader is then admitted
beside it; so `CountersNonNegative` fails. -/
theorem guard_copy_unbalanced :
    pubRun trCopyRead (Sys.init 0)
      = some { lock := { data := 0, rc := -1, wc := 0, prelock := false },
               calls := [Phase.rDone, Phase.rDone] } ∧
    pubRun trCopyWrite (Sys.init 0)
      = some { lock := { data := 0, rc := 1, wc := 0, prelock := false },
               calls := [Phase.wHeld, Phase.wDone, Phase.rHeld] } ∧
    ¬ CountersNonNegative (0 : Int) := by
  refine ⟨by decide, by decide, ?_⟩
  intro hnn
  have hbad := (hnn trCopyRead _ (by decide :
    pubRun trCopyRead (Sys.init 0)
      = some { lock := { data := 0, rc := -1, wc := 0, prelock := false },
               calls := [Phase.rDone, Phase.rDone] })).1
  exact absurd hbad (by decide)

/-! ## Only a write guard changes the value -/

theorem step_data (e : Event T) (s s1 : Sys T) (h : step e s = some s1) :
    s1.lock.data = Event.valueAfter s.lock.data e := by
  cases e with
  | read =>
    simp only [step, Option.some.injEq] at h
    subst h
    simp only [RwLock.readPass, Event.valueAfter]
    split <;> rfl
  | write =>
    simp only [step, Option.some.injEq] at h
    subst h
    exact (writePass_facts s.lock.setPrelock).2.1
  | resume i =>
    simp only [step] at h
    split at h
    · simp only [Option.some.injEq] at h
      subst h
      simp only [RwLock.readPass, Event.valueAfter]
      split <;> rfl
    · simp only [Option.some.injEq] at h
      subst h
      exact (writePass_facts s.lock).2.1
    · cases h
  | spurious i =>
    simp only [step] at h
    split at h
    · split at h
      · simp only [Option.some.injEq] at h
        subst h
        rfl
      · cases h
    · cases h
  | dropRead i k =>
    rw [(step_dropRead_spec s s1 i k h).2.1]
    rfl
  | dropWrite i =>
    rw [(step_dropWrite_spec s s1 i h).2.1]
    rfl
  | store i v =>
    simp only [step] at h
    split at h
    · simp only [Option.some.injEq] at h
      subst h
      rfl
    · cases h

theorem run_data (tr : List (Event T)) : ∀ (s s1 : Sys T), run tr s = some s1 →
    s1.lock.data = lastWrite s.lock.data tr := by
  induction tr with
  | nil =>
    intro s s1 h
    simp only [run, Option.some.injEq] at h
    subst h
    rfl
  | cons e es ih =>
    intro s s1 h
    simp only [run] at h
    split at h
    · rename_i s2 hs
      rw [ih s2 s1 h, step_data e s s2 hs]
      rfl
    · cases h

/-- Claim C15 (only a write guard changes the value): in every state reached
by a schedule, the passes of `read()` and `write()`, both destructors and
`ReadGuard::data()` leave the protected value as it is; a scheduler step changes
it only when it is a store through a write guard; and the value a read guard
returns is the one of the most recent store of the schedule, the initial value
when there was none. -/
theorem only_write_guard_changes_value (d : T) (tr : List (Event T)) (s : Sys T)
    (h : run tr (Sys.init d) = some s) :
    s.lock.readPass.1.data = s.lock.data ∧
    s.lock.writeEntry.1.data = s.lock.data ∧
    s.lock.writePass.1.data = s.lock.data ∧
    (ReadGuard.dtor s.lock).1.data = s.lock.data ∧
    (WriteGuard.dtor s.lock).1.data = s.lock.data ∧
    (∀ (e : Event T) (s1 : Sys T), step e s = some s1 →
      s1.lock.data = Event.valueAfter s.lock.data e) ∧
    (∀ (e : Event T) (s1 : Sys T), step e s = some s1 →
      (∀ (i : Nat) (v : T), e ≠ Event.store i v) → s1.lock.data = s.lock.data) ∧
    ReadGuard.data s.lock = lastWrite d tr := by
  refine ⟨?_, ?_, (writePass_facts s.lock).2.1, rfl, rfl, ?_, ?_, ?_⟩
  · simp only [RwLock.readPass]
    split <;> rfl
  · exact (writePass_facts s.lock.setPrelock).2.1
  · intro e s1 hs
    exact step_data e s s1 hs
  · intro e s1 hs hne
    rw [step_data e s s1 hs]
    cases e with
    | store i v => exact absurd rfl (hne i v)
    | read => rfl
    | write => rfl
    | resume i => rfl
    | spurious i => rfl
    | dropRead i k => rfl
    | dropWrite i => rfl
  · exact run_data tr (Sys.init d) s h

/-- Instance of `only_write_guard_changes_value`: a writer stores 4 and then 9,
a later reader sees 9. -/
theorem only_write_guard_changes_value_witness :
    run trStoreTwice (Sys.init 0) = some stStoreTwice ∧
    lastWrite (0 : Int) trStoreTwice = 9 ∧
    ReadGuard.data stStoreTwice.lock = lastWrite (0 : Int) trStoreTwice :=
  ⟨by decide, by decide,
    (only_write_guard_changes_value 0 trStoreTwice stStoreTwice (by decide)).2.2.2.2.2.2.2⟩

/-! ## What a destructor does -/

/-- Claim C16 as stated fails: with two live read guards (and a writer asleep)
the destruction of one of them decrements `rc` to 1 and, since `rc < 1` is
false (line 139), issues no notification: nobody is woken. -/
theorem read_release_silent :
    Reachable (0 : Int) stTwoReaders ∧
    stTwoReaders.calls[0]? = some Phase.rHeld ∧
    ReadGuard.dtor stTwoReaders.lock
      = ({ data := 0, rc := 1, wc := 0, prelock := true }, Notify.silent) ∧
    step (Event.dropRead 0 0) stTwoReaders
      = some { lock := { data := 0, rc := 1, wc := 0, prelock := true },
               calls := [Phase.rDone, Phase.rHeld, Phase.wWait] } ∧
    ¬ UnconditionalNotify (0 : Int) := by
  refine ⟨⟨trTwoReaders, by decide⟩, by decide, by decide, by decide, ?_⟩
  intro hall
  exact (hall stTwoReaders ⟨trTwoReaders, by decide⟩).1 (by decide) (by decide)

/-- Claim C16, amended: in every reachable state the destruction of a live read
guard takes exactly 1 from `rc` and nothing from `wc`, and issues one
`notify_one` when it was the last live read guard and no notification
otherwise; the destruction of a live write guard takes exactly 1 from `wc` and
nothing from `rc`, and always issues one `notify_all`; on any lock state
whatever each destructor decrements its counter once and notifies at most
once. -/
theorem release_actions (d : T) (s : Sys T) (h : Reachable d s) :
    (0 < s.liveReads →
      (ReadGuard.dtor s.lock).1 = { s.lock with rc := s.lock.rc - 1 } ∧
      ((ReadGuard.dtor s.lock).2 = Notify.one ↔ s.liveReads = 1) ∧
      ((ReadGuard.dtor s.lock).2 = Notify.silent ↔ 2 ≤ s.liveReads)) ∧
    (0 < s.liveWrites →
      (WriteGuard.dtor s.lock).1 = { s.lock with wc := s.lock.wc - 1 } ∧
      (WriteGuard.dtor s.lock).2 = Notify.all) ∧
    (∀ l : RwLock T,
      (ReadGuard.dtor l).1 = { l with rc := l.rc - 1 } ∧
      (ReadGuard.dtor l).2 = (if l.rc - 1 < 1 then Notify.one else Notify.silent) ∧
      (WriteGuard.dtor l).1 = { l with wc := l.wc - 1 } ∧
      (WriteGuard.dtor l).2 = Notify.all) := by
  obtain ⟨h1, _, _, _⟩ := reachable_inv d s h
  refine ⟨?_, fun _ => ⟨rfl, rfl⟩, fun l => ⟨rfl, rfl, rfl, rfl⟩⟩
  intro hl
  refine ⟨rfl, ?_, ?_⟩
  · simp only [ReadGuard.dtor]
    by_cases hlt : s.lock.rc - 1 < 1
    · simp only [hlt, ↓reduceIte, true_iff]
      omega
    · simp only [hlt, ↓reduceIte, reduceCtorEq, false_iff]
      omega
  · simp only [ReadGuard.dtor]
    by_cases hlt : s.lock.rc - 1 < 1
    · simp only [hlt, ↓reduceIte, reduceCtorEq, false_iff]
      omega
    · simp only [hlt, ↓reduceIte, true_iff]
      omega

/-- Instance of `release_actions` with two live read guards: no notification. -/
theorem release_actions_witness :
    Reachable (0 : Int) stTwoReaders ∧ 0 < stTwoReaders.liveReads ∧
    2 ≤ stTwoReaders.liveReads ∧
    (ReadGuard.dtor stTwoReaders.lock).2 = Notify.silent :=
  ⟨⟨trTwoReaders, by decide⟩, by decide, by decide,
    ((release_actions 0 stTwoReaders ⟨trTwoReaders, by decide⟩).1 (by decide)).2.2.mpr
      (by decide)⟩

end RwLockSpec
